import Mathlib

/-!
# cnoise: `include/cnoise/common.h`

A shallow embedding of the header's CPU-capability detection, aligned
allocator and gradient-noise kernels, followed by theorems about them.

Conventions of the embedding.

* A C `int` is carried either as its value (`Int`) or, inside the hash and in
  SIMD integer registers, as its 32-bit pattern (`Nat`, reduced `% 2 ^ 32`).
* A `float` whose bits the code reinterprets (`*(int *)&fx`,
  `_mm256_castps_si256`) is carried as its IEEE-754 single-precision bit
  pattern; `f32_value` decodes the pattern.  A `float` that is only computed
  with is the number itself.
* The kernels are embedded in exact arithmetic: every operation and every
  conversion gives the exact rational.  The scalar kernel is embedded a second
  time in float arithmetic, in the definitions with the suffix `_f32`, where
  each operation is rounded to `float` or to `double` as C evaluates it.
* A 256-bit register is a function on `Fin 8`, lane 0 being the lowest lane; a
  128-bit register is a function on `Fin 4`.
-/

namespace CNoise

/-! ## `enum SIMDType` -/

def SIMD_FALLBACK : Int := 0
def SIMD_SSE2 : Int := 1
def SIMD_SSE4_1 : Int := 2
def SIMD_AVX : Int := 3
def SIMD_AVX2 : Int := 4
def SIMD_AVX512F : Int := 5
def SIMD_NEON : Int := 6

/-! ## CPU capability detection (x86 build, `ARCH_32_64`) -/

/-- What `cpuid` and `xgetbv` answer on the host: the registers the two
functions read.  `leaf1_ecx` is `cpu_info[2]` and `leaf1_edx` is `cpu_info[3]`
after `cpuid(cpu_info, 1)`; `leaf7_ebx` is `cpu_info[1]` after
`cpuid(cpu_info, 7)`; `xcr0` is `xgetbv(0)`. -/
structure CpuState where
  leaf1_ecx : Nat
  leaf1_edx : Nat
  leaf7_ebx : Nat
  xcr0 : Nat

/-- The C expression `reg & (1 << k) || false`. -/
def bit_set (reg k : Nat) : Bool :=
  (reg &&& (1 <<< k)) != 0

/-- The local `xcr_feature_mask`: zero unless the OSXSAVE bit (leaf 1, ECX bit
27) is set, in which case it is `xgetbv(_XCR_XFEATURE_ENABLED_MASK)`. -/
def xcr_feature_mask (c : CpuState) : Nat :=
  let os_xr_store := bit_set c.leaf1_ecx 27
  if os_xr_store then c.xcr0 else 0

/-- The x86 branch of `detect_simd_support`. -/
def detect_simd_support (c : CpuState) : Int :=
  let sse2_supported := bit_set c.leaf1_edx 26
  let sse4_1_supported := bit_set c.leaf1_ecx 19
  let avx_supported := bit_set c.leaf1_ecx 28
  let xcr_feature_mask := xcr_feature_mask c
  let avx2_supported := bit_set c.leaf7_ebx 5
  let avx512f_supported := bit_set c.leaf7_ebx 16
  if avx512f_supported && ((xcr_feature_mask &&& 0xe6) == 0xe6) then SIMD_AVX512F
  else if avx2_supported then SIMD_AVX2
  else if avx_supported && ((xcr_feature_mask &&& 0x6) == 0x6) then SIMD_AVX
  else if sse4_1_supported then SIMD_SSE4_1
  else if sse2_supported then SIMD_SSE2
  else SIMD_FALLBACK

/-- The x86 branch of `check_simd_support`. -/
def check_simd_support (c : CpuState) (instruction_type : Int) : Bool :=
  let sse2_supported := bit_set c.leaf1_edx 26
  let sse4_1_supported := bit_set c.leaf1_ecx 19
  let avx_supported := bit_set c.leaf1_ecx 28
  let xcr_feature_mask := xcr_feature_mask c
  let avx2_supported := bit_set c.leaf7_ebx 5
  let avx512f_supported := bit_set c.leaf7_ebx 16
  if avx512f_supported && ((xcr_feature_mask &&& 0xe6) == 0xe6)
      && instruction_type == SIMD_AVX512F then true
  else if avx2_supported && instruction_type == SIMD_AVX2 then true
  else if avx_supported && ((xcr_feature_mask &&& 0x6) == 0x6)
      && instruction_type == SIMD_AVX then true
  else if sse4_1_supported && instruction_type == SIMD_SSE4_1 then true
  else if sse2_supported && instruction_type == SIMD_SSE2 then true
  else if instruction_type == SIMD_FALLBACK then true
  else false

/-! ## CPU capability detection (ARM build, `ARCH_ARM`) -/

/-- The `#else` branch of `detect_simd_support`. -/
def detect_simd_support_arm : Int :=
  let neon_supported := false
  if neon_supported then SIMD_NEON else SIMD_FALLBACK

/-- The `#else` branch of `check_simd_support`. -/
def check_simd_support_arm (instruction_type : Int) : Bool :=
  let neon_supported := false
  if neon_supported && instruction_type == SIMD_NEON then true else false

/-! ## Aligned allocator

`W` is `sizeof(void *)` in bytes, so that `size_t` and `uintptr_t` have
`8 * W` bits (`W = 8` on x86-64 and AArch64, `W = 4` on 32-bit x86 and ARM).
Addresses and sizes are naturals, reduced modulo `addr_space W` where the C
arithmetic is. -/

/-- Number of values of `size_t` or `uintptr_t`. -/
def addr_space (W : Nat) : Nat :=
  2 ^ (8 * W)

/-- The memory the allocator touches: the `void *` stored in each
pointer-sized slot, by address, and the addresses handed to `free`, latest
first. -/
structure Heap where
  slot : Nat → Nat
  freed : List Nat

/-- The argument of `malloc` in `noise_allocate`:
`size + alignment + sizeof(void *)`, computed in `size_t`. -/
def malloc_request (W alignment size : Nat) : Nat :=
  (size + alignment + W) % addr_space W

/-- The mask `~(alignment - 1)`, computed in `size_t`. -/
def align_mask (W alignment : Nat) : Nat :=
  addr_space W - 1 - (alignment + addr_space W - 1) % addr_space W

/-- The function `noise_allocate`.  The host allocator is the parameter
`malloc`, from the requested size to the address of the block it returns (0
for a null pointer).  The result is the returned pointer `noise_set` and the
heap after the store `noise_set[-1] = mem`; the store is taken to succeed at
whatever address it has (`noise_allocate_checked` below checks it against the
block). -/
def noise_allocate (W : Nat) (malloc : Nat → Nat) (alignment size : Nat) (h : Heap) :
    Nat × Heap :=
  let mem := malloc (malloc_request W alignment size)
  let noise_set := ((mem + alignment + W) % addr_space W) &&& align_mask W alignment
  let header := (noise_set + addr_space W - W) % addr_space W
  (noise_set, Heap.mk (Function.update h.slot header mem) h.freed)

/-- The function `noise_free`: reads `((void **)noise_set)[-1]` and hands it to
`free`. -/
def noise_free (W noise_set : Nat) (h : Heap) : Heap :=
  let header := (noise_set + addr_space W - W) % addr_space W
  Heap.mk h.slot (h.slot header :: h.freed)

/-- How a call of `noise_allocate` ends: it returns a pointer and leaves a
heap, or it performs its store at an address outside the block it obtained,
which C leaves undefined (a store near address 0 or at the top of the address
space faults on the usual hosts). -/
inductive Outcome where
  | returned (noise_set : Nat) (h : Heap)
  | invalid_store (address : Nat)

/-- The function `noise_allocate` with the store `noise_set[-1] = mem` checked
against the block: the store is performed only if the pointer-sized slot lies
inside the `malloc`ed block, and a null `mem` is no block.  Whether the slot
address is a multiple of `sizeof(void *)` is not checked; x86 and AArch64
perform the store either way. -/
def noise_allocate_checked (W : Nat) (malloc : Nat → Nat) (alignment size : Nat) (h : Heap) :
    Outcome :=
  let mem := malloc (malloc_request W alignment size)
  let noise_set := ((mem + alignment + W) % addr_space W) &&& align_mask W alignment
  let header := (noise_set + addr_space W - W) % addr_space W
  if mem ≠ 0 ∧ mem ≤ header ∧ header + W ≤ mem + malloc_request W alignment size then
    Outcome.returned noise_set (Heap.mk (Function.update h.slot header mem) h.freed)
  else Outcome.invalid_store header

/-! ## Machine numbers -/

/-- The 32-bit two's-complement pattern of an integer. -/
def i32_bits (i : Int) : Nat :=
  (i % 4294967296).toNat

/-- The signed value of a 32-bit pattern. -/
def i32_value (b : Nat) : Int :=
  if b % 4294967296 < 2147483648 then (b % 4294967296 : Nat)
  else (b % 4294967296 : Nat) - 4294967296

/-- An `int` result of `+` or `-`, reduced to 32 bits. -/
def int_wrap (i : Int) : Int :=
  i32_value (i32_bits i)

/-- The 32-bit product of two patterns (`*` on `int`, `_mm_mullo_epi32`). -/
def mul32 (a b : Nat) : Nat :=
  a * b % 4294967296

/-- The expression `i >> n` for an `int` with pattern `b`: an arithmetic shift,
which keeps the sign. -/
def asr32 (b n : Nat) : Nat :=
  i32_bits (i32_value b >>> n)

/-- The expression `_mm_srli_epi32(b, n)` in one lane: a logical shift, which
fills with zeros. -/
def lsr32 (b n : Nat) : Nat :=
  (b % 4294967296) >>> n

/-- The value of an IEEE-754 single-precision bit pattern: sign bit 31,
exponent bits 30..23, fraction bits 22..0.  Zero, subnormal and normal numbers
get their value; the patterns with exponent 255 (infinities and NaN) have no
value and get one beyond `2 ^ 127`, outside every range used below. -/
def f32_value (b : Nat) : ℚ :=
  let sign : ℚ := if b / 2147483648 % 2 = 1 then -1 else 1
  let e := b / 8388608 % 256
  let m := b % 8388608
  if e = 0 then sign * (m : ℚ) / 2 ^ 149
  else if 150 ≤ e then sign * ((8388608 + m : ℚ) * 2 ^ (e - 150))
  else sign * ((8388608 + m : ℚ) / 2 ^ (150 - e))

/-- The cast `(int)q` of a float value: truncation toward zero; a value whose
truncation does not fit an `int` gives `INT_MIN`, as `cvttss2si` does. -/
def float_to_int (q : ℚ) : Int :=
  let t : Int := if 0 ≤ q then ⌊q⌋ else ⌈q⌉
  if -2147483648 ≤ t ∧ t < 2147483648 then t else -2147483648

/-- One lane of `_mm256_cvtps_epi32`: round to the nearest integer, ties to
even; a result that does not fit an `int` gives `INT_MIN`. -/
def round_to_int (q : ℚ) : Int :=
  let f : Int := ⌊q⌋
  let r : ℚ := q - f
  let t : Int := if r < 1 / 2 then f else if 1 / 2 < r then f + 1
    else if f % 2 = 0 then f else f + 1
  if -2147483648 ≤ t ∧ t < 2147483648 then t else -2147483648

/-! ## Float rounding

The scalar kernel computes in `float` and, where a `double` constant enters an
expression, in `double`.  `round_f32` and `round_f64` give the value a real
number takes when it is stored in either format: the nearest representable
number, ties to the even significand, subnormal numbers included.  Overflow to
an infinity is not modelled: the exponent has no upper bound. -/

/-- The nearest integer, ties to even. -/
def round_half_even (q : ℚ) : Int :=
  let f : Int := ⌊q⌋
  let r : ℚ := q - f
  if r < 1 / 2 then f else if 1 / 2 < r then f + 1 else if f % 2 = 0 then f else f + 1

/-- The loop of `ilog2`: halve `n` until it is below 2, at most `fuel` times. -/
def log2_loop : Nat → Nat → Nat
  | 0, _ => 0
  | fuel + 1, n => if n < 2 then 0 else log2_loop fuel (n / 2) + 1

/-- The position of the highest set bit of `n` (0 for `n = 0`). -/
def ilog2 (n : Nat) : Nat :=
  log2_loop n n

/-- The binary exponent of a non-zero number: the `k` with
`2 ^ k ≤ |q| < 2 ^ (k + 1)`. -/
def binade (q : ℚ) : Int :=
  let k : Int := (ilog2 q.num.natAbs : Int) - (ilog2 q.den : Int)
  if (2 : ℚ) ^ k ≤ |q| then k else k - 1

/-- Rounding to a binary format with `p` significand bits whose smallest
positive number is `2 ^ emin`: the nearest multiple of the unit in the last
place, ties to even. -/
def round_to (p : Nat) (emin : Int) (q : ℚ) : ℚ :=
  if q = 0 then 0
  else
    let u : Int := max (binade q - ((p : Int) - 1)) emin
    (round_half_even (q / 2 ^ u) : ℚ) * 2 ^ u

/-- Rounding to `float` (IEEE-754 single precision). -/
def round_f32 (q : ℚ) : ℚ :=
  round_to 24 (-149) q

/-- Rounding to `double` (IEEE-754 double precision). -/
def round_f64 (q : ℚ) : ℚ :=
  round_to 53 (-1074) q

/-- The cast `(float)i` of an `int`. -/
def int_to_float (i : Int) : ℚ :=
  round_f32 i

/-- A number that a `float` holds exactly: storing it does not change it. -/
def is_f32 (q : ℚ) : Prop :=
  round_f32 q = q

instance (q : ℚ) : Decidable (is_f32 q) := by
  unfold is_f32
  infer_instance

/-! ## Scalar kernel

In exact arithmetic: every operation, and the conversion `(float)i` of an
`int`, gives the exact number. -/

inductive NoiseQuality where
  | QUALITY_FAST
  | QUALITY_STANDARD
  | QUALITY_BEST
  deriving DecidableEq

def X_NOISE_GEN : Nat := 1619
def Y_NOISE_GEN : Nat := 31337
def Z_NOISE_GEN : Nat := 6971

def s_curve3 (a : ℚ) : ℚ :=
  a * a * (3 - 2 * a)

def s_curve5 (a : ℚ) : ℚ :=
  let a3 := a * a * a
  let a4 := a3 * a
  let a5 := a4 * a
  (6 * a5) - (15 * a4) + (10 * a3)

def linear_interp (n0 n1 a : ℚ) : ℚ :=
  ((1 - a) * n0) + (a * n1)

/-- The function `gradient_noise_3d`.  The floats `fx`, `fy`, `fz` are bit
patterns, because the hash reads their bits. -/
def gradient_noise_3d (fx fy fz : Nat) (ix iy iz : Int) (seed : Int) : ℚ :=
  let random_x := fx ^^^ asr32 fx 16
  let random_y := fy ^^^ asr32 fy 16
  let random_z := fz ^^^ asr32 fz 16
  let random_x := i32_bits seed ^^^ mul32 X_NOISE_GEN random_x
  let random_y := i32_bits seed ^^^ mul32 Y_NOISE_GEN random_y
  let random_z := i32_bits seed ^^^ mul32 Z_NOISE_GEN random_z
  let xv_gradient : ℚ :=
    (i32_value (mul32 (mul32 (mul32 random_x random_x) random_x) 60493) : ℚ) / 2147483648
  let yv_gradient : ℚ :=
    (i32_value (mul32 (mul32 (mul32 random_y random_y) random_y) 60493) : ℚ) / 2147483648
  let zv_gradient : ℚ :=
    (i32_value (mul32 (mul32 (mul32 random_z random_z) random_z) 60493) : ℚ) / 2147483648
  let xv_point : ℚ := f32_value fx - (ix : ℚ)
  let yv_point : ℚ := f32_value fy - (iy : ℚ)
  let zv_point : ℚ := f32_value fz - (iz : ℚ)
  ((xv_gradient * xv_point) + (yv_gradient * yv_point) + (zv_gradient * zv_point)) * (212 / 100)

/-- The expression `(v > 0.0 ? (int)v : (int)v - 1)` that
`gradient_coherent_noise_3d` evaluates for each axis. -/
def lower_corner (v : ℚ) : Int :=
  if v > 0 then float_to_int v else int_wrap (float_to_int v - 1)

/-- The expression that the `switch (noise_quality)` assigns to `xs`, `ys` and
`zs`, for the offset `a` of the axis. -/
def smooth (noise_quality : NoiseQuality) (a : ℚ) : ℚ :=
  match noise_quality with
  | .QUALITY_FAST => a
  | .QUALITY_STANDARD => s_curve3 a
  | .QUALITY_BEST => s_curve5 a

/-- The function `gradient_coherent_noise_3d`. -/
def gradient_coherent_noise_3d (x y z : Nat) (seed : Int) (noise_quality : NoiseQuality) : ℚ :=
  let x0 := lower_corner (f32_value x)
  let x1 := int_wrap (x0 + 1)
  let y0 := lower_corner (f32_value y)
  let y1 := int_wrap (y0 + 1)
  let z0 := lower_corner (f32_value z)
  let z1 := int_wrap (z0 + 1)
  let xs := smooth noise_quality (f32_value x - (x0 : ℚ))
  let ys := smooth noise_quality (f32_value y - (y0 : ℚ))
  let zs := smooth noise_quality (f32_value z - (z0 : ℚ))
  let n0 := gradient_noise_3d x y z x0 y0 z0 seed
  let n1 := gradient_noise_3d x y z x1 y0 z0 seed
  let ix0 := linear_interp n0 n1 xs
  let n0 := gradient_noise_3d x y z x0 y1 z0 seed
  let n1 := gradient_noise_3d x y z x1 y1 z0 seed
  let ix1 := linear_interp n0 n1 xs
  let iy0 := linear_interp ix0 ix1 ys
  let n0 := gradient_noise_3d x y z x0 y0 z1 seed
  let n1 := gradient_noise_3d x y z x1 y0 z1 seed
  let ix0 := linear_interp n0 n1 xs
  let n0 := gradient_noise_3d x y z x0 y1 z1 seed
  let n1 := gradient_noise_3d x y z x1 y1 z1 seed
  let ix1 := linear_interp n0 n1 xs
  let iy1 := linear_interp ix0 ix1 ys
  linear_interp iy0 iy1 zs

/-- The C function `fmod`: the remainder of `x / y` with the quotient truncated
toward zero, so that the result has the sign of `x`. -/
def fmod (x y : ℚ) : ℚ :=
  x - y * ((if 0 ≤ x / y then ⌊x / y⌋ else ⌈x / y⌉ : Int) : ℚ)

/-- The function `make_int_32_range`; `n` is not reinterpreted, so it is a
number. -/
def make_int_32_range (n : ℚ) : ℚ :=
  if n ≥ 1073741824 then (2 * fmod n 1073741824) - 1073741824
  else if n ≤ -1073741824 then (2 * fmod n 1073741824) + 1073741824
  else n

/-- The function `int_value_noise_3d`; the local `n` is a 32-bit pattern. -/
def int_value_noise_3d (x y z : Int) (seed : Int) : Int :=
  let n : Nat := i32_bits 1
  let n := asr32 n 13 ^^^ n
  i32_value (((mul32 n ((mul32 (mul32 n n) 60493 + 19990303) % 4294967296) + 1376312589)
    % 4294967296) &&& 0x7fffffff)

/-- The function `value_noise_3d`. -/
def value_noise_3d (x y z : Int) (seed : Int) : ℚ :=
  1 - ((int_value_noise_3d x y z seed : ℚ) / 1073741824)

/-! ## Scalar kernel in float arithmetic

The scalar kernel once more, with every operation rounded the way C evaluates
it when `float` expressions are computed in `float` (`FLT_EVAL_METHOD` 0) and
not contracted: an operation on two `float`s rounds to `float`, an operation
with a `double` operand rounds to `double`, and the returned or assigned value
is rounded to `float`. -/

/-- The function `s_curve3` in float arithmetic: `a * a` is a `float` product,
`3.0 - 2.0 * a` and the outer product are `double`. -/
def s_curve3_f32 (a : ℚ) : ℚ :=
  round_f32 (round_f64 (round_f32 (a * a) * round_f64 (3 - round_f64 (2 * a))))

/-- The function `s_curve5` in float arithmetic. -/
def s_curve5_f32 (a : ℚ) : ℚ :=
  let a3 := round_f32 (round_f32 (a * a) * a)
  let a4 := round_f32 (a3 * a)
  let a5 := round_f32 (a4 * a)
  round_f32 (round_f64 (round_f64 (round_f64 (6 * a5) - round_f64 (15 * a4))
    + round_f64 (10 * a3)))

/-- The function `linear_interp` in float arithmetic: `1.0 - a` and its product
with `n0` are `double`, `a * n1` is a `float` product, the sum is `double`. -/
def linear_interp_f32 (n0 n1 a : ℚ) : ℚ :=
  round_f32 (round_f64 (round_f64 (round_f64 (1 - a) * n0) + round_f32 (a * n1)))

/-- The function `gradient_noise_3d` in float arithmetic. -/
def gradient_noise_3d_f32 (fx fy fz : Nat) (ix iy iz : Int) (seed : Int) : ℚ :=
  let random_x := fx ^^^ asr32 fx 16
  let random_y := fy ^^^ asr32 fy 16
  let random_z := fz ^^^ asr32 fz 16
  let random_x := i32_bits seed ^^^ mul32 X_NOISE_GEN random_x
  let random_y := i32_bits seed ^^^ mul32 Y_NOISE_GEN random_y
  let random_z := i32_bits seed ^^^ mul32 Z_NOISE_GEN random_z
  let xv_gradient : ℚ := round_f32 (round_f64
    ((i32_value (mul32 (mul32 (mul32 random_x random_x) random_x) 60493) : ℚ) / 2147483648))
  let yv_gradient : ℚ := round_f32 (round_f64
    ((i32_value (mul32 (mul32 (mul32 random_y random_y) random_y) 60493) : ℚ) / 2147483648))
  let zv_gradient : ℚ := round_f32 (round_f64
    ((i32_value (mul32 (mul32 (mul32 random_z random_z) random_z) 60493) : ℚ) / 2147483648))
  let xv_point : ℚ := round_f32 (f32_value fx - int_to_float ix)
  let yv_point : ℚ := round_f32 (f32_value fy - int_to_float iy)
  let zv_point : ℚ := round_f32 (f32_value fz - int_to_float iz)
  round_f32 (round_f64 (round_f32 (round_f32 (round_f32 (xv_gradient * xv_point)
    + round_f32 (yv_gradient * yv_point)) + round_f32 (zv_gradient * zv_point))
    * round_f64 (212 / 100)))

/-- The expression that the `switch (noise_quality)` assigns to `xs`, `ys` and
`zs` in float arithmetic, for the offset `a` of the axis. -/
def smooth_f32 (noise_quality : NoiseQuality) (a : ℚ) : ℚ :=
  match noise_quality with
  | .QUALITY_FAST => a
  | .QUALITY_STANDARD => s_curve3_f32 a
  | .QUALITY_BEST => s_curve5_f32 a

/-- The function `gradient_coherent_noise_3d` in float arithmetic. -/
def gradient_coherent_noise_3d_f32 (x y z : Nat) (seed : Int) (noise_quality : NoiseQuality) :
    ℚ :=
  let x0 := lower_corner (f32_value x)
  let x1 := int_wrap (x0 + 1)
  let y0 := lower_corner (f32_value y)
  let y1 := int_wrap (y0 + 1)
  let z0 := lower_corner (f32_value z)
  let z1 := int_wrap (z0 + 1)
  let xs := smooth_f32 noise_quality (round_f32 (f32_value x - int_to_float x0))
  let ys := smooth_f32 noise_quality (round_f32 (f32_value y - int_to_float y0))
  let zs := smooth_f32 noise_quality (round_f32 (f32_value z - int_to_float z0))
  let n0 := gradient_noise_3d_f32 x y z x0 y0 z0 seed
  let n1 := gradient_noise_3d_f32 x y z x1 y0 z0 seed
  let ix0 := linear_interp_f32 n0 n1 xs
  let n0 := gradient_noise_3d_f32 x y z x0 y1 z0 seed
  let n1 := gradient_noise_3d_f32 x y z x1 y1 z0 seed
  let ix1 := linear_interp_f32 n0 n1 xs
  let iy0 := linear_interp_f32 ix0 ix1 ys
  let n0 := gradient_noise_3d_f32 x y z x0 y0 z1 seed
  let n1 := gradient_noise_3d_f32 x y z x1 y0 z1 seed
  let ix0 := linear_interp_f32 n0 n1 xs
  let n0 := gradient_noise_3d_f32 x y z x0 y1 z1 seed
  let n1 := gradient_noise_3d_f32 x y z x1 y1 z1 seed
  let ix1 := linear_interp_f32 n0 n1 xs
  let iy1 := linear_interp_f32 ix0 ix1 ys
  linear_interp_f32 iy0 iy1 zs

/-! ## Vector registers and the intrinsics the kernels use

A `__m256` that holds the caller's floats is a `V8 Nat` of bit patterns, and
`ps_value` reads its lanes as numbers; a `__m256` that holds a computed result
is a `V8 ℚ`.  A `__m256i` or `__m128i` is a register of 32-bit patterns.  The
float intrinsics are exact: `_mm256_sub_ps` and the others do not round. -/

abbrev V8 (α : Type) : Type := Fin 8 → α

abbrev V4 (α : Type) : Type := Fin 4 → α

/-- The lanes of a float register, as numbers. -/
def ps_value (a : V8 Nat) : V8 ℚ :=
  fun i => f32_value (a i)

def _mm256_set1_ps (a : ℚ) : V8 ℚ :=
  fun _ => a

def _mm256_setzero_ps : V8 ℚ :=
  fun _ => 0

def _mm256_add_ps (a b : V8 ℚ) : V8 ℚ :=
  fun i => a i + b i

def _mm256_sub_ps (a b : V8 ℚ) : V8 ℚ :=
  fun i => a i - b i

def _mm256_mul_ps (a b : V8 ℚ) : V8 ℚ :=
  fun i => a i * b i

def _mm256_div_ps (a b : V8 ℚ) : V8 ℚ :=
  fun i => a i / b i

/-- The comparison `_mm256_cmp_ps(a, b, _CMP_GT_OQ)`; a lane of the mask is
all ones (`true`) or all zeros. -/
def _mm256_cmp_ps_GT_OQ (a b : V8 ℚ) : V8 Bool :=
  fun i => decide (a i > b i)

/-- Lane `i` is taken from `b` where the mask is set and from `a` elsewhere. -/
def _mm256_blendv_ps (a b : V8 ℚ) (mask : V8 Bool) : V8 ℚ :=
  fun i => if mask i then b i else a i

def _mm256_floor_ps (a : V8 ℚ) : V8 ℚ :=
  fun i => ((⌊a i⌋ : Int) : ℚ)

def _mm256_cvtps_epi32 (a : V8 ℚ) : V8 Nat :=
  fun i => i32_bits (round_to_int (a i))

def _mm256_cvtepi32_ps (a : V8 Nat) : V8 ℚ :=
  fun i => (i32_value (a i) : ℚ)

def _mm256_castps_si256 (a : V8 Nat) : V8 Nat :=
  a

def _mm256_set1_epi32 (a : Int) : V8 Nat :=
  fun _ => i32_bits a

def _mm256_xor_si256 (a b : V8 Nat) : V8 Nat :=
  fun i => a i ^^^ b i

def _mm256_srli_epi32 (a : V8 Nat) (imm8 : Nat) : V8 Nat :=
  fun i => lsr32 (a i) imm8

def _mm256_mullo_epi32 (a b : V8 Nat) : V8 Nat :=
  fun i => mul32 (a i) (b i)

def _mm256_add_epi32 (a b : V8 Nat) : V8 Nat :=
  fun i => (a i + b i) % 4294967296

/-- Half `imm8` of a 256-bit register: lanes 0..3 for 0, lanes 4..7 for 1. -/
def _mm256_extractf128_ps (a : V8 Nat) (imm8 : Nat) : V4 Nat :=
  fun i => if imm8 % 2 = 0 then a ⟨i.val, by omega⟩ else a ⟨i.val + 4, by omega⟩

def _mm256_extractf128_si256 (a : V8 Nat) (imm8 : Nat) : V4 Nat :=
  fun i => if imm8 % 2 = 0 then a ⟨i.val, by omega⟩ else a ⟨i.val + 4, by omega⟩

/-- The arguments run from the highest lane `e7` down to lane 0, `e0`. -/
def _mm256_set_epi32 (e7 e6 e5 e4 e3 e2 e1 e0 : Nat) : V8 Nat :=
  fun i =>
    match i with
    | ⟨0, _⟩ => e0
    | ⟨1, _⟩ => e1
    | ⟨2, _⟩ => e2
    | ⟨3, _⟩ => e3
    | ⟨4, _⟩ => e4
    | ⟨5, _⟩ => e5
    | ⟨6, _⟩ => e6
    | ⟨_, _⟩ => e7

def _mm_castps_si128 (a : V4 Nat) : V4 Nat :=
  a

def _mm_set1_epi32 (a : Int) : V4 Nat :=
  fun _ => i32_bits a

def _mm_xor_si128 (a b : V4 Nat) : V4 Nat :=
  fun i => a i ^^^ b i

def _mm_srli_epi32 (a : V4 Nat) (imm8 : Nat) : V4 Nat :=
  fun i => lsr32 (a i) imm8

def _mm_mullo_epi32 (a b : V4 Nat) : V4 Nat :=
  fun i => mul32 (a i) (b i)

def _mm_add_epi32 (a b : V4 Nat) : V4 Nat :=
  fun i => (a i + b i) % 4294967296

def _mm_extract_epi32 (a : V4 Nat) (imm8 : Nat) : Nat :=
  a ⟨imm8 % 4, Nat.mod_lt _ (by decide)⟩

/-! ## Wide kernels -/

def s_curve3_avx (a : V8 ℚ) : V8 ℚ :=
  _mm256_mul_ps a (_mm256_mul_ps a
    (_mm256_sub_ps (_mm256_set1_ps 3) (_mm256_mul_ps (_mm256_set1_ps 2) a)))

def s_curve5_avx (a : V8 ℚ) : V8 ℚ :=
  let a3 := _mm256_mul_ps a (_mm256_mul_ps a a)
  let a4 := _mm256_mul_ps a3 a
  let a5 := _mm256_mul_ps a4 a
  _mm256_add_ps
    (_mm256_sub_ps (_mm256_mul_ps (_mm256_set1_ps 6) a5) (_mm256_mul_ps (_mm256_set1_ps 15) a4))
    (_mm256_mul_ps (_mm256_set1_ps 10) a3)

def linear_interp_avx (n0 n1 a : V8 ℚ) : V8 ℚ :=
  _mm256_add_ps (_mm256_mul_ps (_mm256_sub_ps (_mm256_set1_ps 1) a) n0) (_mm256_mul_ps a n1)

/-- The expression that the `switch (noise_quality)` of the wide kernels
assigns to `xs`, for the register `a` of offsets. -/
def smooth_avx (noise_quality : NoiseQuality) (a : V8 ℚ) : V8 ℚ :=
  match noise_quality with
  | .QUALITY_FAST => a
  | .QUALITY_STANDARD => s_curve3_avx a
  | .QUALITY_BEST => s_curve5_avx a

/-- The function `gradient_noise_3d_avx`: the x hash is computed on the two
128-bit halves and put together again with `_mm256_set_epi32`. -/
def gradient_noise_3d_avx (fx : V8 Nat) (fy fz : Nat) (ix : V8 Nat) (iy iz : Int) (seed : Int) :
    V8 ℚ :=
  let random_low := _mm_xor_si128 (_mm_castps_si128 (_mm256_extractf128_ps fx 0))
    (_mm_srli_epi32 (_mm_castps_si128 (_mm256_extractf128_ps fx 0)) 16)
  let random_high := _mm_xor_si128 (_mm_castps_si128 (_mm256_extractf128_ps fx 1))
    (_mm_srli_epi32 (_mm_castps_si128 (_mm256_extractf128_ps fx 1)) 16)
  let random_y := fy ^^^ asr32 fy 16
  let random_z := fz ^^^ asr32 fz 16
  let random_low := _mm_xor_si128 (_mm_set1_epi32 seed)
    (_mm_mullo_epi32 (_mm_set1_epi32 X_NOISE_GEN) random_low)
  let random_high := _mm_xor_si128 (_mm_set1_epi32 seed)
    (_mm_mullo_epi32 (_mm_set1_epi32 X_NOISE_GEN) random_high)
  let random_y := i32_bits seed ^^^ mul32 Y_NOISE_GEN random_y
  let random_z := i32_bits seed ^^^ mul32 Z_NOISE_GEN random_z
  let random_low := _mm_mullo_epi32 random_low
    (_mm_mullo_epi32 random_low (_mm_mullo_epi32 random_low (_mm_set1_epi32 60493)))
  let random_high := _mm_mullo_epi32 random_high
    (_mm_mullo_epi32 random_high (_mm_mullo_epi32 random_high (_mm_set1_epi32 60493)))
  let xv_gradient := _mm256_cvtepi32_ps (_mm256_set_epi32
    (_mm_extract_epi32 random_high 3) (_mm_extract_epi32 random_high 2)
    (_mm_extract_epi32 random_high 1) (_mm_extract_epi32 random_high 0)
    (_mm_extract_epi32 random_low 3) (_mm_extract_epi32 random_low 2)
    (_mm_extract_epi32 random_low 1) (_mm_extract_epi32 random_low 0))
  let xv_gradient := _mm256_div_ps xv_gradient (_mm256_set1_ps 2147483648)
  let yv_gradient : ℚ :=
    (i32_value (mul32 (mul32 (mul32 random_y random_y) random_y) 60493) : ℚ) / 2147483648
  let zv_gradient : ℚ :=
    (i32_value (mul32 (mul32 (mul32 random_z random_z) random_z) 60493) : ℚ) / 2147483648
  let xv_point := _mm256_sub_ps (ps_value fx) (_mm256_cvtepi32_ps ix)
  let yv_point : ℚ := f32_value fy - (iy : ℚ)
  let zv_point : ℚ := f32_value fz - (iz : ℚ)
  _mm256_mul_ps
    (_mm256_add_ps
      (_mm256_add_ps (_mm256_mul_ps xv_gradient xv_point)
        (_mm256_mul_ps (_mm256_set1_ps yv_gradient) (_mm256_set1_ps yv_point)))
      (_mm256_mul_ps (_mm256_set1_ps zv_gradient) (_mm256_set1_ps zv_point)))
    (_mm256_set1_ps (212 / 100))

/-- The function `gradient_coherent_noise_3d_avx`. -/
def gradient_coherent_noise_3d_avx (x : V8 Nat) (y z : Nat) (seed : Int)
    (noise_quality : NoiseQuality) : V8 ℚ :=
  let x0 := _mm256_cvtps_epi32 (_mm256_floor_ps (_mm256_blendv_ps
    (_mm256_sub_ps (ps_value x) (_mm256_set1_ps 1)) (ps_value x)
    (_mm256_cmp_ps_GT_OQ (ps_value x) _mm256_setzero_ps)))
  let x1_low := _mm256_extractf128_si256 x0 0
  let x1_low := _mm_add_epi32 x1_low (_mm_set1_epi32 1)
  let x1_high := _mm256_extractf128_si256 x0 1
  let x1_high := _mm_add_epi32 x1_high (_mm_set1_epi32 1)
  let x1 := _mm256_set_epi32
    (_mm_extract_epi32 x1_high 3) (_mm_extract_epi32 x1_high 2)
    (_mm_extract_epi32 x1_high 1) (_mm_extract_epi32 x1_high 0)
    (_mm_extract_epi32 x1_low 3) (_mm_extract_epi32 x1_low 2)
    (_mm_extract_epi32 x1_low 1) (_mm_extract_epi32 x1_low 0)
  let y0 := lower_corner (f32_value y)
  let y1 := int_wrap (y0 + 1)
  let z0 := lower_corner (f32_value z)
  let z1 := int_wrap (z0 + 1)
  let xs := smooth_avx noise_quality (_mm256_sub_ps (ps_value x) (_mm256_cvtepi32_ps x0))
  let ys := smooth noise_quality (f32_value y - (y0 : ℚ))
  let zs := smooth noise_quality (f32_value z - (z0 : ℚ))
  let n0 := gradient_noise_3d_avx x y z x0 y0 z0 seed
  let n1 := gradient_noise_3d_avx x y z x1 y0 z0 seed
  let ix0 := linear_interp_avx n0 n1 xs
  let n0 := gradient_noise_3d_avx x y z x0 y1 z0 seed
  let n1 := gradient_noise_3d_avx x y z x1 y1 z0 seed
  let ix1 := linear_interp_avx n0 n1 xs
  let iy0 := linear_interp_avx ix0 ix1 (_mm256_set1_ps ys)
  let n0 := gradient_noise_3d_avx x y z x0 y0 z1 seed
  let n1 := gradient_noise_3d_avx x y z x1 y0 z1 seed
  let ix0 := linear_interp_avx n0 n1 xs
  let n0 := gradient_noise_3d_avx x y z x0 y1 z1 seed
  let n1 := gradient_noise_3d_avx x y z x1 y1 z1 seed
  let ix1 := linear_interp_avx n0 n1 xs
  let iy1 := linear_interp_avx ix0 ix1 (_mm256_set1_ps ys)
  linear_interp_avx iy0 iy1 (_mm256_set1_ps zs)

/-- The function `gradient_noise_3d_avx2`. -/
def gradient_noise_3d_avx2 (fx : V8 Nat) (fy fz : Nat) (ix : V8 Nat) (iy iz : Int) (seed : Int) :
    V8 ℚ :=
  let random_x := _mm256_xor_si256 (_mm256_castps_si256 fx)
    (_mm256_srli_epi32 (_mm256_castps_si256 fx) 16)
  let random_y := fy ^^^ asr32 fy 16
  let random_z := fz ^^^ asr32 fz 16
  let random_x := _mm256_xor_si256 (_mm256_set1_epi32 seed)
    (_mm256_mullo_epi32 (_mm256_set1_epi32 X_NOISE_GEN) random_x)
  let random_y := i32_bits seed ^^^ mul32 Y_NOISE_GEN random_y
  let random_z := i32_bits seed ^^^ mul32 Z_NOISE_GEN random_z
  let xv_gradient := _mm256_div_ps
    (_mm256_cvtepi32_ps (_mm256_mullo_epi32 random_x
      (_mm256_mullo_epi32 random_x (_mm256_mullo_epi32 random_x (_mm256_set1_epi32 60493)))))
    (_mm256_set1_ps 2147483648)
  let yv_gradient : ℚ :=
    (i32_value (mul32 (mul32 (mul32 random_y random_y) random_y) 60493) : ℚ) / 2147483648
  let zv_gradient : ℚ :=
    (i32_value (mul32 (mul32 (mul32 random_z random_z) random_z) 60493) : ℚ) / 2147483648
  let xv_point := _mm256_sub_ps (ps_value fx) (_mm256_cvtepi32_ps ix)
  let yv_point : ℚ := f32_value fy - (iy : ℚ)
  let zv_point : ℚ := f32_value fz - (iz : ℚ)
  _mm256_mul_ps
    (_mm256_add_ps
      (_mm256_add_ps (_mm256_mul_ps xv_gradient xv_point)
        (_mm256_mul_ps (_mm256_set1_ps yv_gradient) (_mm256_set1_ps yv_point)))
      (_mm256_mul_ps (_mm256_set1_ps zv_gradient) (_mm256_set1_ps zv_point)))
    (_mm256_set1_ps (212 / 100))

/-- The function `gradient_coherent_noise_3d_avx2`. -/
def gradient_coherent_noise_3d_avx2 (x : V8 Nat) (y z : Nat) (seed : Int)
    (noise_quality : NoiseQuality) : V8 ℚ :=
  let x0 := _mm256_cvtps_epi32 (_mm256_floor_ps (_mm256_blendv_ps
    (_mm256_sub_ps (ps_value x) (_mm256_set1_ps 1)) (ps_value x)
    (_mm256_cmp_ps_GT_OQ (ps_value x) _mm256_setzero_ps)))
  let x1 := _mm256_add_epi32 x0 (_mm256_set1_epi32 1)
  let y0 := lower_corner (f32_value y)
  let y1 := int_wrap (y0 + 1)
  let z0 := lower_corner (f32_value z)
  let z1 := int_wrap (z0 + 1)
  let xs := smooth_avx noise_quality (_mm256_sub_ps (ps_value x) (_mm256_cvtepi32_ps x0))
  let ys := smooth noise_quality (f32_value y - (y0 : ℚ))
  let zs := smooth noise_quality (f32_value z - (z0 : ℚ))
  let n0 := gradient_noise_3d_avx2 x y z x0 y0 z0 seed
  let n1 := gradient_noise_3d_avx2 x y z x1 y0 z0 seed
  let ix0 := linear_interp_avx n0 n1 xs
  let n0 := gradient_noise_3d_avx2 x y z x0 y1 z0 seed
  let n1 := gradient_noise_3d_avx2 x y z x1 y1 z0 seed
  let ix1 := linear_interp_avx n0 n1 xs
  let iy0 := linear_interp_avx ix0 ix1 (_mm256_set1_ps ys)
  let n0 := gradient_noise_3d_avx2 x y z x0 y0 z1 seed
  let n1 := gradient_noise_3d_avx2 x y z x1 y0 z1 seed
  let ix0 := linear_interp_avx n0 n1 xs
  let n0 := gradient_noise_3d_avx2 x y z x0 y1 z1 seed
  let n1 := gradient_noise_3d_avx2 x y z x1 y1 z1 seed
  let ix1 := linear_interp_avx n0 n1 xs
  let iy1 := linear_interp_avx ix0 ix1 (_mm256_set1_ps ys)
  linear_interp_avx iy0 iy1 (_mm256_set1_ps zs)

/-! ## Sub-expressions named for the proofs -/

/-- The x hash of one 128-bit half, as `gradient_noise_3d_avx` computes it. -/
def hash_half (half : V4 Nat) (seed : Int) : V4 Nat :=
  let random := _mm_xor_si128 (_mm_castps_si128 half) (_mm_srli_epi32 (_mm_castps_si128 half) 16)
  let random := _mm_xor_si128 (_mm_set1_epi32 seed)
    (_mm_mullo_epi32 (_mm_set1_epi32 X_NOISE_GEN) random)
  _mm_mullo_epi32 random
    (_mm_mullo_epi32 random (_mm_mullo_epi32 random (_mm_set1_epi32 60493)))

/-- The x hash of the whole register, as `gradient_noise_3d_avx2` computes it. -/
def hash_full (fx : V8 Nat) (seed : Int) : V8 Nat :=
  let random_x := _mm256_xor_si256 (_mm256_castps_si256 fx)
    (_mm256_srli_epi32 (_mm256_castps_si256 fx) 16)
  let random_x := _mm256_xor_si256 (_mm256_set1_epi32 seed)
    (_mm256_mullo_epi32 (_mm256_set1_epi32 X_NOISE_GEN) random_x)
  _mm256_mullo_epi32 random_x
    (_mm256_mullo_epi32 random_x (_mm256_mullo_epi32 random_x (_mm256_set1_epi32 60493)))

/-- The gradient component of one axis, as `gradient_noise_3d` computes it from
the bits `f` of the coordinate. -/
def axis_gradient (gen f : Nat) (seed : Int) : ℚ :=
  let random := f ^^^ asr32 f 16
  let random := i32_bits seed ^^^ mul32 gen random
  (i32_value (mul32 (mul32 (mul32 random random) random) 60493) : ℚ) / 2147483648

/-- A coordinate within the int range for which the corner `(int)v - 1` is an
`int` as well: `INT_MIN < v ≤ INT_MAX`.  At `v = INT_MIN` the subtraction
`(int)v - 1` overflows. -/
def in_int_range (v : ℚ) : Prop :=
  -2147483648 < v ∧ v ≤ 2147483647

instance (v : ℚ) : Decidable (in_int_range v) := by
  unfold in_int_range
  infer_instance

/-- The x gradient of one lane, as `gradient_noise_3d_avx2` computes it from
the bits `f` of the lane. -/
def lane_gradient (f : Nat) (seed : Int) : ℚ :=
  let random := f ^^^ lsr32 f 16
  let random := i32_bits seed ^^^ mul32 (i32_bits X_NOISE_GEN) random
  (i32_value (mul32 random (mul32 random (mul32 random (i32_bits 60493)))) : ℚ) / 2147483648

/-- One lane of the register `x0` of the wide kernels:
`_mm256_cvtps_epi32(_mm256_floor_ps(x > 0 ? x : x - 1))`, with the subtraction
`x - 1` exact. -/
def lower_corner_avx (v : ℚ) : Int :=
  round_to_int ((⌊if v > 0 then v else v - 1⌋ : Int) : ℚ)

/-- The hashed integer of one axis, as `gradient_noise_3d` computes it: the
numerator of the gradient component. -/
def axis_hash (gen f : Nat) (seed : Int) : Int :=
  let random := f ^^^ asr32 f 16
  let random := i32_bits seed ^^^ mul32 gen random
  i32_value (mul32 (mul32 (mul32 random random) random) 60493)

/-- The hashed integer of one lane, as `gradient_noise_3d_avx2` computes it. -/
def lane_hash (f : Nat) (seed : Int) : Int :=
  let random := f ^^^ lsr32 f 16
  let random := i32_bits seed ^^^ mul32 (i32_bits X_NOISE_GEN) random
  i32_value (mul32 random (mul32 random (mul32 random (i32_bits 60493))))

/-! ## Theorems: CPU capability detection -/

/-- C1: on the x86 build, whatever `cpuid` and `xgetbv` answer, the tier that
`detect_simd_support` returns is one that `check_simd_support` accepts. -/
theorem check_detected_tier (c : CpuState) :
    check_simd_support c (detect_simd_support c) = true := by
  rcases Bool.eq_false_or_eq_true (bit_set c.leaf7_ebx 16) with h1 | h1 <;>
  rcases Bool.eq_false_or_eq_true (bit_set c.leaf7_ebx 5) with h2 | h2 <;>
  rcases Bool.eq_false_or_eq_true (bit_set c.leaf1_ecx 28) with h3 | h3 <;>
  rcases Bool.eq_false_or_eq_true (bit_set c.leaf1_ecx 19) with h4 | h4 <;>
  rcases Bool.eq_false_or_eq_true (bit_set c.leaf1_edx 26) with h5 | h5 <;>
  rcases Bool.eq_false_or_eq_true (xcr_feature_mask c &&& 0xe6 == 0xe6) with h6 | h6 <;>
  rcases Bool.eq_false_or_eq_true (xcr_feature_mask c &&& 0x6 == 0x6) with h7 | h7 <;>
  simp only [check_simd_support, detect_simd_support, h1, h2, h3, h4, h5, h6, h7] <;>
  decide

/-- C2: on the x86 build `detect_simd_support` returns the greatest tier, in
enum order, that `check_simd_support` accepts: it is accepted itself, and any
`instruction_type` that is accepted is at most the detected one. -/
theorem detect_is_greatest_supported (c : CpuState) :
    check_simd_support c (detect_simd_support c) = true ∧
      ∀ t : Int, check_simd_support c t = true → t ≤ detect_simd_support c := by
  rcases Bool.eq_false_or_eq_true (bit_set c.leaf7_ebx 16) with h1 | h1 <;>
  rcases Bool.eq_false_or_eq_true (bit_set c.leaf7_ebx 5) with h2 | h2 <;>
  rcases Bool.eq_false_or_eq_true (bit_set c.leaf1_ecx 28) with h3 | h3 <;>
  rcases Bool.eq_false_or_eq_true (bit_set c.leaf1_ecx 19) with h4 | h4 <;>
  rcases Bool.eq_false_or_eq_true (bit_set c.leaf1_edx 26) with h5 | h5 <;>
  rcases Bool.eq_false_or_eq_true (xcr_feature_mask c &&& 0xe6 == 0xe6) with h6 | h6 <;>
  rcases Bool.eq_false_or_eq_true (xcr_feature_mask c &&& 0x6 == 0x6) with h7 | h7 <;>
  simp only [check_simd_support, detect_simd_support, h1, h2, h3, h4, h5, h6, h7] <;>
  refine ⟨by decide, fun t => ?_⟩ <;>
  simp [SIMD_FALLBACK, SIMD_SSE2, SIMD_SSE4_1, SIMD_AVX, SIMD_AVX2, SIMD_AVX512F] <;>
  omega

/-- When the operating system has not enabled the YMM state, the mask test that
guards the AVX and the AVX-512 branches fails. -/
theorem xcr_tests_fail (c : CpuState)
    (h : bit_set c.leaf1_ecx 27 = false ∨ c.xcr0 &&& 0x6 ≠ 0x6) :
    (xcr_feature_mask c &&& 0x6 == 0x6) = false ∧
      (xcr_feature_mask c &&& 0xe6 == 0xe6) = false := by
  have key : xcr_feature_mask c &&& 0x6 ≠ 0x6 := by
    simp only [xcr_feature_mask]
    rcases h with h | h
    · simp [h]
    · split_ifs
      · exact h
      · simp
  refine ⟨by simpa using key, ?_⟩
  have wide : xcr_feature_mask c &&& 0xe6 ≠ 0xe6 := by
    intro hw
    apply key
    have : xcr_feature_mask c &&& 0x6 = (xcr_feature_mask c &&& 0xe6) &&& 0x6 := by
      rw [Nat.and_assoc]
      rfl
    rw [this, hw]
    rfl
  simpa using wide

/-- The part of C3 that the code keeps: when OSXSAVE is clear or
`XCR0 & 0x6 != 0x6`, neither `SIMD_AVX` nor `SIMD_AVX512F` is detected, and
`check_simd_support` rejects both. -/
theorem avx_and_avx512_need_os_support (c : CpuState)
    (h : bit_set c.leaf1_ecx 27 = false ∨ c.xcr0 &&& 0x6 ≠ 0x6) :
    detect_simd_support c ≠ SIMD_AVX ∧ detect_simd_support c ≠ SIMD_AVX512F ∧
      check_simd_support c SIMD_AVX = false ∧
      check_simd_support c SIMD_AVX512F = false := by
  obtain ⟨h7, h6⟩ := xcr_tests_fail c h
  rcases Bool.eq_false_or_eq_true (bit_set c.leaf7_ebx 16) with h1 | h1 <;>
  rcases Bool.eq_false_or_eq_true (bit_set c.leaf7_ebx 5) with h2 | h2 <;>
  rcases Bool.eq_false_or_eq_true (bit_set c.leaf1_ecx 28) with h3 | h3 <;>
  rcases Bool.eq_false_or_eq_true (bit_set c.leaf1_ecx 19) with h4 | h4 <;>
  rcases Bool.eq_false_or_eq_true (bit_set c.leaf1_edx 26) with h5 | h5 <;>
  simp only [check_simd_support, detect_simd_support, h1, h2, h3, h4, h5, h6, h7] <;>
  decide

/-- C3 fails for `SIMD_AVX2`: on a processor that reports AVX2 (leaf 7, EBX
bit 5) while OSXSAVE is clear, `detect_simd_support` returns `SIMD_AVX2` and
`check_simd_support(SIMD_AVX2)` returns true; the AVX2 branch has no mask
test, unlike the AVX branch next to it. -/
theorem avx2_detected_without_os_support :
    (bit_set (CpuState.mk 0 0 32 0).leaf1_ecx 27 = false ∨
        (CpuState.mk 0 0 32 0).xcr0 &&& 0x6 ≠ 0x6) ∧
      detect_simd_support (CpuState.mk 0 0 32 0) = SIMD_AVX2 ∧
      check_simd_support (CpuState.mk 0 0 32 0) SIMD_AVX2 = true := by
  decide

/-- C4 holds on the x86 build and fails on the ARM build: the x86
`check_simd_support` accepts `SIMD_FALLBACK` for every processor state, while
the ARM one returns false for `SIMD_FALLBACK`, the very tier that the ARM
`detect_simd_support` returns. -/
theorem fallback_supported_on_x86_not_on_arm :
    (∀ c : CpuState, check_simd_support c SIMD_FALLBACK = true) ∧
      detect_simd_support_arm = SIMD_FALLBACK ∧
      check_simd_support_arm SIMD_FALLBACK = false ∧
      check_simd_support_arm detect_simd_support_arm = false := by
  refine ⟨fun c => ?_, by decide, by decide, by decide⟩
  rcases Bool.eq_false_or_eq_true (bit_set c.leaf7_ebx 16) with h1 | h1 <;>
  rcases Bool.eq_false_or_eq_true (bit_set c.leaf7_ebx 5) with h2 | h2 <;>
  rcases Bool.eq_false_or_eq_true (bit_set c.leaf1_ecx 28) with h3 | h3 <;>
  rcases Bool.eq_false_or_eq_true (bit_set c.leaf1_ecx 19) with h4 | h4 <;>
  rcases Bool.eq_false_or_eq_true (bit_set c.leaf1_edx 26) with h5 | h5 <;>
  rcases Bool.eq_false_or_eq_true (xcr_feature_mask c &&& 0xe6 == 0xe6) with h6 | h6 <;>
  rcases Bool.eq_false_or_eq_true (xcr_feature_mask c &&& 0x6 == 0x6) with h7 | h7 <;>
  simp only [check_simd_support, h1, h2, h3, h4, h5, h6, h7] <;>
  decide

/-! ## Theorems: aligned allocator -/

/-- For a power of two that fits `size_t`, the mask `~(alignment - 1)` has the
bits from `k` up to the top set and the low `k` bits clear. -/
theorem align_mask_two_pow (W k : Nat) (hk : k < 8 * W) :
    align_mask W (2 ^ k) = 2 ^ k * (2 ^ (8 * W - k) - 1) := by
  unfold align_mask addr_space
  have hlt : 2 ^ k < 2 ^ (8 * W) := Nat.pow_lt_pow_right (by decide) hk
  have hpos : 0 < 2 ^ k := Nat.pos_pow_of_pos k (by decide)
  have hsplit : 2 ^ (8 * W) = 2 ^ k * 2 ^ (8 * W - k) := by
    rw [← Nat.pow_add]
    congr 1
    omega
  have hmod : (2 ^ k + 2 ^ (8 * W) - 1) % 2 ^ (8 * W) = 2 ^ k - 1 := by
    have : 2 ^ k + 2 ^ (8 * W) - 1 = (2 ^ k - 1) + 2 ^ (8 * W) := by omega
    rw [this, Nat.add_mod_right]
    exact Nat.mod_eq_of_lt (by omega)
  rw [hmod, Nat.mul_sub, Nat.mul_one, ← hsplit]
  omega

/-- Masking with `2 ^ k * (2 ^ m - 1)` keeps bits `k .. k + m - 1`. -/
theorem and_shifted_ones (v k m : Nat) :
    v &&& (2 ^ k * (2 ^ m - 1)) = 2 ^ k * (v / 2 ^ k % 2 ^ m) := by
  apply Nat.eq_of_testBit_eq
  intro j
  rw [Nat.testBit_and, Nat.testBit_mul_pow_two, Nat.testBit_mul_pow_two,
    Nat.testBit_two_pow_sub_one, Nat.testBit_mod_two_pow, ← Nat.shiftRight_eq_div_pow,
    Nat.testBit_shiftRight]
  by_cases hj : j ≥ k
  · have : k + (j - k) = j := by omega
    simp [hj, this, Bool.and_comm]
  · simp [hj]

/-- The pointer that `noise_allocate` returns for a power-of-two alignment. -/
theorem noise_allocate_ptr (W k : Nat) (malloc : Nat → Nat) (size : Nat) (h : Heap)
    (hk : k < 8 * W) :
    (noise_allocate W malloc (2 ^ k) size h).1 =
      2 ^ k * ((malloc (malloc_request W (2 ^ k) size) + 2 ^ k + W) % addr_space W
        / 2 ^ k % 2 ^ (8 * W - k)) := by
  simp only [noise_allocate, align_mask_two_pow W k hk, and_shifted_ones]

/-- C9: for every power-of-two alignment that `size_t` can hold and every
address the host allocator returns, the address returned by `noise_allocate`
is a multiple of the alignment. -/
theorem noise_allocate_aligned (W k : Nat) (malloc : Nat → Nat) (size : Nat) (h : Heap)
    (hk : k < 8 * W) :
    2 ^ k ∣ (noise_allocate W malloc (2 ^ k) size h).1 := by
  rw [noise_allocate_ptr W k malloc size h hk]
  exact Nat.dvd_mul_right _ _

/-- Witness for C9: a 64-bit build, alignment 16, a host block at 4104. -/
theorem noise_allocate_aligned_witness :
    (4 : Nat) < 8 * 8 ∧
      2 ^ 4 ∣ (noise_allocate 8 (fun _ => 4104) (2 ^ 4) 100 (Heap.mk (fun _ => 0) [])).1 :=
  ⟨by decide, noise_allocate_aligned 8 4 (fun _ => 4104) 100 (Heap.mk (fun _ => 0) []) (by decide)⟩

/-- C10 as stated fails: on a 32-bit build (`sizeof(void *) = 4`) with
alignment `2 ^ 31`, size `2 ^ 31` and a host block at `0x80000000`, the sum
`mem + alignment + sizeof(void *)` wraps, `noise_allocate` returns 0, and the
header slot lies below the block. -/
theorem noise_allocate_outside_block :
    ¬ (2147483648 + 4 ≤
          (noise_allocate 4 (fun _ => 2147483648) 2147483648 2147483648
            (Heap.mk (fun _ => 0) [])).1 ∧
        (noise_allocate 4 (fun _ => 2147483648) 2147483648 2147483648
            (Heap.mk (fun _ => 0) [])).1 + 2147483648 ≤
          2147483648 + 2147483648 + 2147483648 + 4) := by
  decide

/-- A second way for C10 to fail, on a 64-bit build: with alignment 16 and
size `2 ^ 64 - 1` the request `size + alignment + sizeof(void *)` wraps to 23
bytes, and the usable region ends far beyond the block of 23 bytes. -/
theorem noise_allocate_request_wraps :
    malloc_request 8 16 18446744073709551615 = 23 ∧
      (noise_allocate 8 (fun _ => 4096) 16 18446744073709551615 (Heap.mk (fun _ => 0) [])).1
        = 4112 ∧
      ¬ (4112 + 18446744073709551615 ≤ 4096 + malloc_request 8 16 18446744073709551615) := by
  decide

/-- C10, amended: when the alignment is a power of two that `size_t` can hold,
the request `size + alignment + sizeof(void *)` does not wrap and the block the
host allocator returns ends below the top of the address space, the header
slot `[p - sizeof(void *), p)` and the usable region `[p, p + size)` lie
inside that block. -/
theorem noise_allocate_inside_block (W k : Nat) (malloc : Nat → Nat) (size : Nat) (h : Heap)
    (hk : k < 8 * W) (hreq : size + 2 ^ k + W < addr_space W)
    (hblock : malloc (malloc_request W (2 ^ k) size) + (size + 2 ^ k + W) < addr_space W) :
    malloc_request W (2 ^ k) size = size + 2 ^ k + W ∧
      malloc (malloc_request W (2 ^ k) size) + W ≤
        (noise_allocate W malloc (2 ^ k) size h).1 ∧
      (noise_allocate W malloc (2 ^ k) size h).1 + size ≤
        malloc (malloc_request W (2 ^ k) size) + malloc_request W (2 ^ k) size := by
  have hr : malloc_request W (2 ^ k) size = size + 2 ^ k + W := by
    unfold malloc_request
    exact Nat.mod_eq_of_lt hreq
  rw [noise_allocate_ptr W k malloc size h hk]
  rw [hr] at hblock ⊢
  generalize malloc (size + 2 ^ k + W) = mem at hblock ⊢
  have hv : mem + 2 ^ k + W < addr_space W := by omega
  rw [Nat.mod_eq_of_lt hv]
  have hpos : 0 < 2 ^ k := Nat.pos_pow_of_pos k (by decide)
  have hsplit : addr_space W = 2 ^ k * 2 ^ (8 * W - k) := by
    unfold addr_space
    rw [← Nat.pow_add]
    congr 1
    omega
  have hq : (mem + 2 ^ k + W) / 2 ^ k < 2 ^ (8 * W - k) := by
    rw [Nat.div_lt_iff_lt_mul hpos, Nat.mul_comm, ← hsplit]
    exact hv
  rw [Nat.mod_eq_of_lt hq]
  have hdm := Nat.div_add_mod (mem + 2 ^ k + W) (2 ^ k)
  have hml := Nat.mod_lt (mem + 2 ^ k + W) hpos
  refine ⟨rfl, ?_, ?_⟩ <;> omega

/-- Witness for the amended C10: a 64-bit build, alignment 16, size 100, a
host block at 4104. -/
theorem noise_allocate_inside_block_witness :
    ((4 : Nat) < 8 * 8 ∧ 100 + 2 ^ 4 + 8 < addr_space 8 ∧
        (fun _ : Nat => 4104) (malloc_request 8 (2 ^ 4) 100) + (100 + 2 ^ 4 + 8) < addr_space 8) ∧
      (malloc_request 8 (2 ^ 4) 100 = 100 + 2 ^ 4 + 8 ∧
        (fun _ : Nat => 4104) (malloc_request 8 (2 ^ 4) 100) + 8 ≤
          (noise_allocate 8 (fun _ => 4104) (2 ^ 4) 100 (Heap.mk (fun _ => 0) [])).1 ∧
        (noise_allocate 8 (fun _ => 4104) (2 ^ 4) 100 (Heap.mk (fun _ => 0) [])).1 + 100 ≤
          (fun _ : Nat => 4104) (malloc_request 8 (2 ^ 4) 100) + malloc_request 8 (2 ^ 4) 100) :=
  ⟨by decide, noise_allocate_inside_block 8 4 (fun _ => 4104) 100 (Heap.mk (fun _ => 0) [])
    (by decide) (by decide) (by decide)⟩

/-! ## Theorems: the split-half and the full-width kernels -/

/-- Adding 1 to the two halves of a register and putting them together again
with `_mm256_set_epi32` is the lane-wise `_mm256_add_epi32`. -/
theorem split_add_eq_add (x0 : V8 Nat) :
    _mm256_set_epi32
      (_mm_extract_epi32 (_mm_add_epi32 (_mm256_extractf128_si256 x0 1) (_mm_set1_epi32 1)) 3)
      (_mm_extract_epi32 (_mm_add_epi32 (_mm256_extractf128_si256 x0 1) (_mm_set1_epi32 1)) 2)
      (_mm_extract_epi32 (_mm_add_epi32 (_mm256_extractf128_si256 x0 1) (_mm_set1_epi32 1)) 1)
      (_mm_extract_epi32 (_mm_add_epi32 (_mm256_extractf128_si256 x0 1) (_mm_set1_epi32 1)) 0)
      (_mm_extract_epi32 (_mm_add_epi32 (_mm256_extractf128_si256 x0 0) (_mm_set1_epi32 1)) 3)
      (_mm_extract_epi32 (_mm_add_epi32 (_mm256_extractf128_si256 x0 0) (_mm_set1_epi32 1)) 2)
      (_mm_extract_epi32 (_mm_add_epi32 (_mm256_extractf128_si256 x0 0) (_mm_set1_epi32 1)) 1)
      (_mm_extract_epi32 (_mm_add_epi32 (_mm256_extractf128_si256 x0 0) (_mm_set1_epi32 1)) 0)
      = _mm256_add_epi32 x0 (_mm256_set1_epi32 1) := by
  funext i
  fin_cases i <;> rfl

/-- Hashing the two halves and putting the lanes together again with
`_mm256_set_epi32` is the full-width hash. -/
theorem split_hash_eq_hash (fx : V8 Nat) (seed : Int) :
    _mm256_set_epi32
      (_mm_extract_epi32 (hash_half (_mm256_extractf128_ps fx 1) seed) 3)
      (_mm_extract_epi32 (hash_half (_mm256_extractf128_ps fx 1) seed) 2)
      (_mm_extract_epi32 (hash_half (_mm256_extractf128_ps fx 1) seed) 1)
      (_mm_extract_epi32 (hash_half (_mm256_extractf128_ps fx 1) seed) 0)
      (_mm_extract_epi32 (hash_half (_mm256_extractf128_ps fx 0) seed) 3)
      (_mm_extract_epi32 (hash_half (_mm256_extractf128_ps fx 0) seed) 2)
      (_mm_extract_epi32 (hash_half (_mm256_extractf128_ps fx 0) seed) 1)
      (_mm_extract_epi32 (hash_half (_mm256_extractf128_ps fx 0) seed) 0)
      = hash_full fx seed := by
  funext i
  fin_cases i <;> rfl

/-- The split-half x hash of `gradient_noise_3d_avx` is the full-width one of
`gradient_noise_3d_avx2`, lane for lane. -/
theorem gradient_noise_3d_avx_eq (fx : V8 Nat) (fy fz : Nat) (ix : V8 Nat) (iy iz seed : Int) :
    gradient_noise_3d_avx fx fy fz ix iy iz seed =
      gradient_noise_3d_avx2 fx fy fz ix iy iz seed := by
  have h := split_hash_eq_hash fx seed
  simp only [hash_half, hash_full] at h
  simp only [gradient_noise_3d_avx, gradient_noise_3d_avx2, h]

/-- One lane of `gradient_noise_3d_avx2`. -/
theorem gradient_noise_3d_avx2_lane (fx : V8 Nat) (fy fz : Nat) (ix : V8 Nat) (iy iz seed : Int)
    (i : Fin 8) :
    gradient_noise_3d_avx2 fx fy fz ix iy iz seed i =
      (lane_gradient (fx i) seed * (f32_value (fx i) - i32_value (ix i)) +
        axis_gradient Y_NOISE_GEN fy seed * (f32_value fy - iy) +
        axis_gradient Z_NOISE_GEN fz seed * (f32_value fz - iz)) * (212 / 100) := by
  simp only [gradient_noise_3d_avx2, lane_gradient, axis_gradient, _mm256_mul_ps, _mm256_add_ps,
    _mm256_sub_ps, _mm256_div_ps, _mm256_set1_ps, _mm256_cvtepi32_ps, _mm256_mullo_epi32,
    _mm256_xor_si256, _mm256_set1_epi32, _mm256_srli_epi32, _mm256_castps_si256, ps_value]

/-- C6: `gradient_noise_3d_avx` returns the same 8 lanes in the same order as
`gradient_noise_3d_avx2`, lane `i` of the result being computed from lane `i`
of `fx` and of `ix`, and `gradient_coherent_noise_3d_avx` equals
`gradient_coherent_noise_3d_avx2`, for every input and quality. -/
theorem avx_agrees_with_avx2 :
    (∀ (fx : V8 Nat) (fy fz : Nat) (ix : V8 Nat) (iy iz seed : Int) (i : Fin 8),
        gradient_noise_3d_avx fx fy fz ix iy iz seed i =
          gradient_noise_3d_avx2 fx fy fz ix iy iz seed i ∧
        gradient_noise_3d_avx fx fy fz ix iy iz seed i =
          (lane_gradient (fx i) seed * (f32_value (fx i) - i32_value (ix i)) +
            axis_gradient Y_NOISE_GEN fy seed * (f32_value fy - iy) +
            axis_gradient Z_NOISE_GEN fz seed * (f32_value fz - iz)) * (212 / 100)) ∧
      ∀ (x : V8 Nat) (y z : Nat) (seed : Int) (q : NoiseQuality),
        gradient_coherent_noise_3d_avx x y z seed q =
          gradient_coherent_noise_3d_avx2 x y z seed q := by
  refine ⟨fun fx fy fz ix iy iz seed i => ⟨?_, ?_⟩, fun x y z seed q => ?_⟩
  · rw [gradient_noise_3d_avx_eq]
  · rw [gradient_noise_3d_avx_eq, gradient_noise_3d_avx2_lane]
  · simp only [gradient_coherent_noise_3d_avx, gradient_coherent_noise_3d_avx2,
      split_add_eq_add, gradient_noise_3d_avx_eq]

/-! ## Theorems: scalar kernel -/

theorem i32_value_bounds (b : Nat) :
    -2147483648 ≤ i32_value b ∧ i32_value b < 2147483648 := by
  unfold i32_value
  have := Nat.mod_lt b (show 0 < 4294967296 by decide)
  split_ifs <;> omega

theorem int_wrap_of_fits (i : Int) (h1 : -2147483648 ≤ i) (h2 : i < 2147483648) :
    int_wrap i = i := by
  unfold int_wrap i32_value i32_bits
  have hnn : 0 ≤ i % 4294967296 := Int.emod_nonneg _ (by decide)
  have hlt : i % 4294967296 < 4294967296 := Int.emod_lt_of_pos _ (by decide)
  have hmod : ((i % 4294967296).toNat % 4294967296 : Nat) = (i % 4294967296).toNat := by
    apply Nat.mod_eq_of_lt
    omega
  rw [hmod]
  split_ifs <;> omega

/-- A gradient component is a 32-bit signed integer over `2 ^ 31`. -/
theorem axis_gradient_bounds (gen f : Nat) (seed : Int) :
    -1 ≤ axis_gradient gen f seed ∧ axis_gradient gen f seed ≤ 1 := by
  unfold axis_gradient
  simp only
  generalize mul32 _ 60493 = b
  obtain ⟨h1, h2⟩ := i32_value_bounds b
  have h1q : (-2147483648 : ℚ) ≤ (i32_value b : ℚ) := by exact_mod_cast h1
  have h2q : (i32_value b : ℚ) < 2147483648 := by exact_mod_cast h2
  constructor
  · rw [le_div_iff₀ (by norm_num)]; linarith
  · rw [div_le_iff₀ (by norm_num)]; linarith

/-- The value of `gradient_noise_3d` is the dot product of the gradient, hashed
from the sample alone, with the offset from the corner, times 2.12. -/
theorem gradient_noise_3d_eq (fx fy fz : Nat) (ix iy iz seed : Int) :
    gradient_noise_3d fx fy fz ix iy iz seed =
      (axis_gradient X_NOISE_GEN fx seed * (f32_value fx - ix) +
        axis_gradient Y_NOISE_GEN fy seed * (f32_value fy - iy) +
        axis_gradient Z_NOISE_GEN fz seed * (f32_value fz - iz)) * (212 / 100) := by
  simp only [gradient_noise_3d, axis_gradient]

/-- The scalar corner in closed form: `⌊v⌋` for positive `v`, `⌈v⌉ - 1`
otherwise. -/
theorem lower_corner_eq (v : ℚ) (hv : in_int_range v) :
    lower_corner v = if v > 0 then ⌊v⌋ else ⌈v⌉ - 1 := by
  obtain ⟨hlo, hhi⟩ := hv
  unfold lower_corner float_to_int
  by_cases hpos : v > 0
  · have h0 : (0 : ℚ) ≤ v := le_of_lt hpos
    have hf0 : 0 ≤ ⌊v⌋ := Int.floor_nonneg.2 h0
    have hfhi : ⌊v⌋ ≤ 2147483647 := by
      have : (⌊v⌋ : ℚ) ≤ 2147483647 := le_trans (Int.floor_le v) hhi
      exact_mod_cast this
    have hrange : -2147483648 ≤ ⌊v⌋ ∧ ⌊v⌋ < 2147483648 := ⟨by omega, by omega⟩
    simp only [hpos, h0, if_true, hrange, and_self]
  · have hle : v ≤ 0 := not_lt.1 hpos
    have hcle : ⌈v⌉ ≤ 0 := Int.ceil_le.2 (by simpa using hle)
    have hclo : -2147483648 < ⌈v⌉ := by
      have : (-2147483648 : ℚ) < ⌈v⌉ := lt_of_lt_of_le hlo (Int.le_ceil v)
      exact_mod_cast this
    have ht : (if 0 ≤ v then ⌊v⌋ else ⌈v⌉) = ⌈v⌉ := by
      split_ifs with h
      · have : v = 0 := le_antisymm hle h
        subst this
        simp
      · rfl
    have hrange : -2147483648 ≤ ⌈v⌉ ∧ ⌈v⌉ < 2147483648 := ⟨by omega, by omega⟩
    simp only [hpos, if_false, ht, hrange, and_self, if_true]
    exact int_wrap_of_fits (⌈v⌉ - 1) (by omega) (by omega)

/-- The reason `in_int_range` leaves out `INT_MIN`: for the float `-2 ^ 31` the
subtraction `(int)v - 1` leaves the `int` range, and reduced to 32 bits the
corner is `INT_MAX`. -/
theorem lower_corner_at_int_min :
    f32_value 0xCF000000 = -2147483648 ∧ lower_corner (f32_value 0xCF000000) = 2147483647 := by
  decide!

/-- The corner that `gradient_coherent_noise_3d` computes for a coordinate in
range: the offset from it lies in `[0, 1]`, and the upper corner is one above
it unless the coordinate is `INT_MAX`, where the offset is 0. -/
theorem lower_corner_spec (v : ℚ) (hv : in_int_range v) :
    0 ≤ v - lower_corner v ∧ v - lower_corner v ≤ 1 ∧
      (int_wrap (lower_corner v + 1) = lower_corner v + 1 ∨ v - lower_corner v = 0) := by
  rw [lower_corner_eq v hv]
  obtain ⟨hlo, hhi⟩ := hv
  by_cases hpos : v > 0
  · have h0 : (0 : ℚ) ≤ v := le_of_lt hpos
    have hf0 : 0 ≤ ⌊v⌋ := Int.floor_nonneg.2 h0
    have hfle : (⌊v⌋ : ℚ) ≤ v := Int.floor_le v
    have hflt : v < ⌊v⌋ + 1 := Int.lt_floor_add_one v
    have hfhi : ⌊v⌋ ≤ 2147483647 := by
      have : (⌊v⌋ : ℚ) ≤ 2147483647 := le_trans hfle hhi
      exact_mod_cast this
    simp only [hpos, if_true]
    refine ⟨by linarith, by linarith, ?_⟩
    by_cases hedge : ⌊v⌋ = 2147483647
    · right
      have : (⌊v⌋ : ℚ) = 2147483647 := by exact_mod_cast hedge
      linarith
    · left
      exact int_wrap_of_fits _ (by omega) (by omega)
  · have hle : v ≤ 0 := not_lt.1 hpos
    have hcle : ⌈v⌉ ≤ 0 := Int.ceil_le.2 (by simpa using hle)
    have hvc : v ≤ ⌈v⌉ := Int.le_ceil v
    have hclt : (⌈v⌉ : ℚ) < v + 1 := Int.ceil_lt_add_one v
    have hclo : -2147483648 < ⌈v⌉ := by
      have : (-2147483648 : ℚ) < ⌈v⌉ := lt_of_lt_of_le hlo hvc
      exact_mod_cast this
    simp only [hpos, if_false]
    refine ⟨?_, ?_, Or.inl (int_wrap_of_fits _ (by omega) (by omega))⟩
    · push_cast; linarith
    · push_cast; linarith

/-- The eight corner values blend to a single dot product: every corner uses
the same gradient, which is hashed from the sample and not from the corner. -/
theorem gradient_coherent_noise_3d_eq (x y z : Nat) (seed : Int) (q : NoiseQuality) :
    gradient_coherent_noise_3d x y z seed q =
      (axis_gradient X_NOISE_GEN x seed *
          (f32_value x - lower_corner (f32_value x)
            - smooth q (f32_value x - lower_corner (f32_value x)) *
              (int_wrap (lower_corner (f32_value x) + 1) - lower_corner (f32_value x))) +
        axis_gradient Y_NOISE_GEN y seed *
          (f32_value y - lower_corner (f32_value y)
            - smooth q (f32_value y - lower_corner (f32_value y)) *
              (int_wrap (lower_corner (f32_value y) + 1) - lower_corner (f32_value y))) +
        axis_gradient Z_NOISE_GEN z seed *
          (f32_value z - lower_corner (f32_value z)
            - smooth q (f32_value z - lower_corner (f32_value z)) *
              (int_wrap (lower_corner (f32_value z) + 1) - lower_corner (f32_value z)))) *
        (212 / 100) := by
  simp only [gradient_coherent_noise_3d, gradient_noise_3d_eq, linear_interp]
  ring

/-- Each smoothing curve maps 0 to 0. -/
theorem smooth_zero (q : NoiseQuality) : smooth q 0 = 0 := by
  cases q <;> simp [smooth, s_curve3, s_curve5]

/-- On `[0, 1]` a smoothing curve moves the offset by at most 0.157. -/
theorem smooth_offset_bounds (q : NoiseQuality) (a : ℚ) (h0 : 0 ≤ a) (h1 : a ≤ 1) :
    -(157 / 1000) ≤ a - smooth q a ∧ a - smooth q a ≤ 157 / 1000 := by
  have hb : 0 ≤ 1 - a := sub_nonneg.2 h1
  cases q
  · simp only [smooth]
    constructor <;> norm_num
  · simp only [smooth, s_curve3]
    constructor
    · nlinarith [mul_nonneg h0 hb, sq_nonneg (a - 1/5), mul_nonneg h0 (sq_nonneg (a - 1/5)),
        mul_nonneg hb (sq_nonneg (a - 1/5)), sq_nonneg (a - 4/5),
        mul_nonneg h0 (sq_nonneg (a - 4/5)), mul_nonneg hb (sq_nonneg (a - 4/5))]
    · nlinarith [mul_nonneg h0 hb, sq_nonneg (a - 1/5), mul_nonneg h0 (sq_nonneg (a - 1/5)),
        mul_nonneg hb (sq_nonneg (a - 1/5)), sq_nonneg (a - 4/5),
        mul_nonneg h0 (sq_nonneg (a - 4/5))]
  · simp only [smooth, s_curve5]
    constructor
    · nlinarith [mul_nonneg h0 hb, sq_nonneg (a - 3/4), mul_nonneg h0 (sq_nonneg (a - 3/4)),
        mul_nonneg hb (sq_nonneg (a - 3/4)), sq_nonneg (a * a - 9/16),
        sq_nonneg ((1 - a) * (a - 3/4)), mul_nonneg h0 (sq_nonneg ((1 - a) * (a - 3/4))),
        mul_nonneg hb (sq_nonneg ((1 - a) * (a - 3/4))),
        sq_nonneg ((1 - a) * (1 - a) - 1/16)]
    · nlinarith [mul_nonneg h0 hb, sq_nonneg (a - 1/4), mul_nonneg h0 (sq_nonneg (a - 1/4)),
        mul_nonneg hb (sq_nonneg (a - 1/4)), sq_nonneg (a * a - 1/16),
        sq_nonneg (a * (a - 1/4)), mul_nonneg h0 (sq_nonneg (a * (a - 1/4))),
        mul_nonneg hb (sq_nonneg (a * (a - 1/4)))]

/-- The factor that multiplies the gradient of one axis in the blended value:
the offset minus the smoothed offset (times the distance of the two corners,
which is 1 unless the offset is 0). -/
theorem axis_term (q : NoiseQuality) (v : ℚ) (hv : in_int_range v) :
    v - lower_corner v - smooth q (v - lower_corner v) *
        (int_wrap (lower_corner v + 1) - lower_corner v) =
      v - lower_corner v - smooth q (v - lower_corner v) := by
  obtain ⟨-, -, hw | hz⟩ := lower_corner_spec v hv
  · rw [hw]
    push_cast
    ring
  · rw [hz, smooth_zero]
    ring

/-- C7 fails as stated: the float `-2147483648.0f` (bits `0xCF000000`) is
`INT_MIN`, within the int range; there the corner `(int)x - 1` wraps to
`INT_MAX`, the offset is `1 - 2 ^ 32`, and in exact arithmetic the result at
`(INT_MIN, 0.25, 0.25)`, seed 42, `QUALITY_FAST`, is
`3525344381339766672 / 5`, about `7 * 10 ^ 17`. -/
theorem gradient_coherent_noise_3d_at_int_min :
    f32_value 0xCF000000 = -2147483648 ∧
      gradient_coherent_noise_3d 0xCF000000 0x3E800000 0x3E800000 42 .QUALITY_FAST =
        3525344381339766672 / 5 ∧
      ¬ (-1 ≤ gradient_coherent_noise_3d 0xCF000000 0x3E800000 0x3E800000 42 .QUALITY_FAST ∧
        gradient_coherent_noise_3d 0xCF000000 0x3E800000 0x3E800000 42 .QUALITY_FAST ≤ 1) := by
  decide!

/-- C7, as amended: in exact arithmetic, with the hash and the corner
arithmetic computed modulo `2 ^ 32`, for coordinates with
`INT_MIN < v ≤ INT_MAX` (`in_int_range`), every seed and each of the three
qualities, the result of `gradient_coherent_noise_3d` lies in `[-1, 1]`. -/
theorem gradient_coherent_noise_3d_range (x y z : Nat) (seed : Int) (q : NoiseQuality)
    (hx : in_int_range (f32_value x)) (hy : in_int_range (f32_value y))
    (hz : in_int_range (f32_value z)) :
    -1 ≤ gradient_coherent_noise_3d x y z seed q ∧
      gradient_coherent_noise_3d x y z seed q ≤ 1 := by
  obtain ⟨hx0, hx1, -⟩ := lower_corner_spec _ hx
  obtain ⟨hy0, hy1, -⟩ := lower_corner_spec _ hy
  obtain ⟨hz0, hz1, -⟩ := lower_corner_spec _ hz
  rw [gradient_coherent_noise_3d_eq, axis_term q _ hx, axis_term q _ hy, axis_term q _ hz]
  have term : ∀ g d : ℚ, -1 ≤ g ∧ g ≤ 1 → -(157 / 1000) ≤ d ∧ d ≤ 157 / 1000 →
      |g * d| ≤ 157 / 1000 := by
    intro g d hg hd
    rw [abs_mul]
    have h1 : |g| ≤ 1 := abs_le.2 hg
    have h2 : |d| ≤ 157 / 1000 := abs_le.2 hd
    calc |g| * |d| ≤ 1 * (157 / 1000) :=
          mul_le_mul h1 h2 (abs_nonneg d) (by norm_num)
      _ = 157 / 1000 := by norm_num
  have tx := abs_le.1 (term _ _ (axis_gradient_bounds X_NOISE_GEN x seed)
    (smooth_offset_bounds q _ hx0 hx1))
  have ty := abs_le.1 (term _ _ (axis_gradient_bounds Y_NOISE_GEN y seed)
    (smooth_offset_bounds q _ hy0 hy1))
  have tz := abs_le.1 (term _ _ (axis_gradient_bounds Z_NOISE_GEN z seed)
    (smooth_offset_bounds q _ hz0 hz1))
  constructor <;> linarith [tx.1, tx.2, ty.1, ty.2, tz.1, tz.2]

/-- Witness for the amended C7 at the sample `(0.5, -0.25, 3.0)`, seed 42,
`QUALITY_BEST`. -/
theorem gradient_coherent_noise_3d_range_witness :
    (in_int_range (f32_value 0x3F000000) ∧ in_int_range (f32_value 0xBE800000) ∧
        in_int_range (f32_value 0x40400000)) ∧
      (-1 ≤ gradient_coherent_noise_3d 0x3F000000 0xBE800000 0x40400000 42 .QUALITY_BEST ∧
        gradient_coherent_noise_3d 0x3F000000 0xBE800000 0x40400000 42 .QUALITY_BEST ≤ 1) :=
  ⟨⟨by norm_num [in_int_range, f32_value], by norm_num [in_int_range, f32_value],
      by norm_num [in_int_range, f32_value]⟩,
    gradient_coherent_noise_3d_range 0x3F000000 0xBE800000 0x40400000 42 .QUALITY_BEST
      (by norm_num [in_int_range, f32_value]) (by norm_num [in_int_range, f32_value])
      (by norm_num [in_int_range, f32_value])⟩

theorem float_to_int_intCast (n : Int) (h1 : -2147483648 ≤ n) (h2 : n < 2147483648) :
    float_to_int (n : ℚ) = n := by
  unfold float_to_int
  simp only [Int.floor_intCast, Int.ceil_intCast, ite_self]
  rw [if_pos ⟨h1, h2⟩]

/-- In exact arithmetic, for an integer-valued sample with
`INT_MIN < v ≤ INT_MAX` on each axis (`in_int_range`) and every seed,
`gradient_coherent_noise_3d` with `QUALITY_FAST` equals `gradient_noise_3d`
evaluated at the lattice point `((int)x, (int)y, (int)z)`, where the offset
is zero. -/
theorem fast_noise_at_lattice_point (x y z : Nat) (seed : Int) (nx ny nz : Int)
    (hx : in_int_range (f32_value x)) (hy : in_int_range (f32_value y))
    (hz : in_int_range (f32_value z))
    (hnx : f32_value x = nx) (hny : f32_value y = ny) (hnz : f32_value z = nz) :
    gradient_coherent_noise_3d x y z seed .QUALITY_FAST =
      gradient_noise_3d x y z (float_to_int (f32_value x)) (float_to_int (f32_value y))
        (float_to_int (f32_value z)) seed := by
  have cast_fits : ∀ (v : ℚ) (n : Int), in_int_range v → v = n →
      v - (float_to_int v : ℚ) = 0 := by
    intro v n hv hn
    subst hn
    obtain ⟨h1, h2⟩ := hv
    have h1z : -2147483648 < n := by exact_mod_cast h1
    have h2z : n ≤ 2147483647 := by exact_mod_cast h2
    rw [float_to_int_intCast n (by omega) (by omega)]
    ring
  rw [gradient_coherent_noise_3d_eq, axis_term _ _ hx, axis_term _ _ hy, axis_term _ _ hz,
    gradient_noise_3d_eq, cast_fits _ nx hx hnx, cast_fits _ ny hy hny, cast_fits _ nz hz hnz]
  simp only [smooth]
  ring

/-! ## Theorems: wide kernels against the scalar kernel -/

theorem round_to_int_intCast (n : Int) (h1 : -2147483648 ≤ n) (h2 : n < 2147483648) :
    round_to_int (n : ℚ) = n := by
  unfold round_to_int
  simp only [Int.floor_intCast, sub_self]
  norm_num
  intro h
  omega

/-- Adding two patterns modulo `2 ^ 32` is adding the integers. -/
theorem i32_bits_add (a b : Int) :
    (i32_bits a + i32_bits b) % 4294967296 = i32_bits (a + b) := by
  unfold i32_bits
  omega

/-- With the sign bit clear the logical and the arithmetic shift agree. -/
theorem lsr32_eq_asr32 (b : Nat) (h : b < 2147483648) : lsr32 b 16 = asr32 b 16 := by
  unfold lsr32 asr32 i32_bits i32_value
  have hm : b % 4294967296 = b := Nat.mod_eq_of_lt (by omega)
  rw [hm, if_pos h, Int.shiftRight_eq_div_pow, Nat.shiftRight_eq_div_pow]
  norm_num
  omega

/-- The wide kernels multiply from the right, the scalar kernel from the left. -/
theorem mul32_cube (r c : Nat) :
    mul32 r (mul32 r (mul32 r c)) = mul32 (mul32 (mul32 r r) r) c := by
  simp only [mul32, Nat.mul_mod_mod, Nat.mod_mul_mod]
  congr 1
  ring

/-- For a lane whose sign bit is clear, the logical shift of the wide hash is
the arithmetic shift of the scalar hash, and the gradients agree. -/
theorem lane_gradient_eq_axis_gradient (f : Nat) (seed : Int) (h : f < 2147483648) :
    lane_gradient f seed = axis_gradient X_NOISE_GEN f seed := by
  have h1 : i32_bits (X_NOISE_GEN : Int) = X_NOISE_GEN := by decide
  have h2 : i32_bits 60493 = 60493 := by decide
  simp only [lane_gradient, axis_gradient, lsr32_eq_asr32 f h, h1, h2, mul32_cube]

/-- One lane of the smoothing step of the wide kernels. -/
theorem smooth_avx_lane (q : NoiseQuality) (a : V8 ℚ) (i : Fin 8) :
    smooth_avx q a i = smooth q (a i) := by
  cases q
  · rfl
  · simp only [smooth_avx, smooth, s_curve3_avx, s_curve3, _mm256_mul_ps, _mm256_sub_ps,
      _mm256_set1_ps]
    ring
  · simp only [smooth_avx, smooth, s_curve5_avx, s_curve5, _mm256_mul_ps, _mm256_sub_ps,
      _mm256_add_ps, _mm256_set1_ps]
    ring

/-- The register `x0` of the wide kernels, lane by lane. -/
theorem x0_lane (x : V8 Nat) :
    _mm256_cvtps_epi32 (_mm256_floor_ps (_mm256_blendv_ps
      (_mm256_sub_ps (ps_value x) (_mm256_set1_ps 1)) (ps_value x)
      (_mm256_cmp_ps_GT_OQ (ps_value x) _mm256_setzero_ps))) =
    fun i => i32_bits (lower_corner_avx (f32_value (x i))) := by
  funext i
  simp only [_mm256_cvtps_epi32, _mm256_floor_ps, _mm256_blendv_ps, _mm256_sub_ps, ps_value,
    _mm256_set1_ps, _mm256_cmp_ps_GT_OQ, _mm256_setzero_ps, lower_corner_avx, decide_eq_true_eq]

/-- The wide corner in closed form: `⌊v⌋` for positive `v`, `⌊v⌋ - 1`
otherwise. -/
theorem lower_corner_avx_eq (v : ℚ) (hlo : -2147483647 ≤ v) (hhi : v ≤ 2147483647) :
    lower_corner_avx v = if v > 0 then ⌊v⌋ else ⌊v⌋ - 1 := by
  unfold lower_corner_avx
  have hfhi : ⌊v⌋ ≤ 2147483647 := by
    have : (⌊v⌋ : ℚ) ≤ 2147483647 := le_trans (Int.floor_le v) hhi
    exact_mod_cast this
  have hflo : -2147483647 ≤ ⌊v⌋ := by
    apply Int.le_floor.2
    push_cast
    linarith
  by_cases hpos : v > 0
  · simp only [hpos, if_true]
    exact round_to_int_intCast _ (by omega) (by omega)
  · simp only [hpos, if_false, Int.floor_sub_one]
    exact round_to_int_intCast _ (by omega) (by omega)

/-- A pattern with the sign bit clear has a value that is not negative. -/
theorem f32_value_nonneg (b : Nat) (h : b < 2147483648) : 0 ≤ f32_value b := by
  unfold f32_value
  have hs : ¬ (b / 2147483648 % 2 = 1) := by omega
  simp only [hs, if_false, one_mul]
  split_ifs <;> positivity

/-- On a lane that is not negative the two corners agree. -/
theorem lower_corner_avx_eq_lower_corner (v : ℚ) (h0 : 0 ≤ v) (hhi : v ≤ 2147483647) :
    lower_corner_avx v = lower_corner v := by
  rw [lower_corner_avx_eq v (by linarith) hhi, lower_corner_eq v ⟨by linarith, hhi⟩]
  by_cases hpos : v > 0
  · simp only [hpos, if_true]
  · have : v = 0 := le_antisymm (not_lt.1 hpos) h0
    subst this
    simp

/-- Where the wide kernels agree with the scalar kernel: for a lane of `x` with
the sign bit clear (zero or a positive float) and a value up to `INT_MAX`, the
lane of `gradient_coherent_noise_3d_avx2` equals the scalar
`gradient_coherent_noise_3d` of that lane, for every `y`, `z`, seed and
quality. -/
theorem wide_lane_eq_scalar_of_nonneg (x : V8 Nat) (y z : Nat) (seed : Int) (q : NoiseQuality)
    (i : Fin 8) (hb : x i < 2147483648) (hhi : f32_value (x i) ≤ 2147483647) :
    gradient_coherent_noise_3d_avx2 x y z seed q i =
      gradient_coherent_noise_3d (x i) y z seed q := by
  have h0 := f32_value_nonneg (x i) hb
  have hr : in_int_range (f32_value (x i)) := ⟨by linarith, hhi⟩
  have hc := lower_corner_avx_eq_lower_corner _ h0 hhi
  have hfit : int_wrap (lower_corner (f32_value (x i))) = lower_corner (f32_value (x i)) := by
    rw [lower_corner_eq _ hr]
    have hfhi : ⌊f32_value (x i)⌋ ≤ 2147483647 := by
      have : (⌊f32_value (x i)⌋ : ℚ) ≤ 2147483647 := le_trans (Int.floor_le _) hhi
      exact_mod_cast this
    have hf0 : 0 ≤ ⌊f32_value (x i)⌋ := Int.floor_nonneg.2 h0
    have hc0 : 0 ≤ ⌈f32_value (x i)⌉ := Int.ceil_nonneg h0
    have hchi : ⌈f32_value (x i)⌉ ≤ 2147483647 := by
      apply Int.ceil_le.2
      push_cast
      linarith
    split_ifs
    · exact int_wrap_of_fits _ (by omega) (by omega)
    · exact int_wrap_of_fits _ (by omega) (by omega)
  simp only [gradient_coherent_noise_3d_avx2, gradient_coherent_noise_3d, x0_lane,
    linear_interp_avx, linear_interp, _mm256_add_ps, _mm256_mul_ps, _mm256_sub_ps,
    _mm256_set1_ps, gradient_noise_3d_avx2_lane, gradient_noise_3d_eq, smooth_avx_lane,
    _mm256_cvtepi32_ps, _mm256_add_epi32, _mm256_set1_epi32, ps_value,
    lane_gradient_eq_axis_gradient _ seed hb, hc, i32_bits_add]
  have e0 : i32_value (i32_bits (lower_corner (f32_value (x i)))) =
      lower_corner (f32_value (x i)) := hfit
  have e1 : i32_value (i32_bits (lower_corner (f32_value (x i)) + 1)) =
      int_wrap (lower_corner (f32_value (x i)) + 1) := rfl
  simp only [e0, e1]

/-- C5 fails at a negative fractional lane: with every lane of `x` at `-0.5`,
`y = z = 0.5`, seed 42 and `QUALITY_STANDARD`, lane 0 of
`gradient_coherent_noise_3d_avx2` and of `gradient_coherent_noise_3d_avx` is
`-3410057577 / 13421772800`, while the scalar `gradient_coherent_noise_3d` of
the same sample is 0. -/
theorem wide_lane_differs_from_scalar :
    f32_value 0xBF000000 = -1 / 2 ∧ f32_value 0x3F000000 = 1 / 2 ∧
      gradient_coherent_noise_3d_avx2 (fun _ => 0xBF000000) 0x3F000000 0x3F000000 42
        .QUALITY_STANDARD 0 = -3410057577 / 13421772800 ∧
      gradient_coherent_noise_3d_avx (fun _ => 0xBF000000) 0x3F000000 0x3F000000 42
        .QUALITY_STANDARD 0 = -3410057577 / 13421772800 ∧
      gradient_coherent_noise_3d 0xBF000000 0x3F000000 0x3F000000 42 .QUALITY_STANDARD = 0 ∧
      gradient_coherent_noise_3d_avx2 (fun _ => 0xBF000000) 0x3F000000 0x3F000000 42
        .QUALITY_STANDARD 0 ≠
        gradient_coherent_noise_3d 0xBF000000 0x3F000000 0x3F000000 42 .QUALITY_STANDARD := by
  decide!

/-! ## Theorems: allocator round trip and failure paths -/

/-- The store `noise_set[-1] = mem` is read back from the heap that
`noise_allocate` leaves. -/
theorem noise_allocate_header (W : Nat) (malloc : Nat → Nat) (alignment size : Nat) (h : Heap) :
    (noise_allocate W malloc alignment size h).2.slot
        (((noise_allocate W malloc alignment size h).1 + addr_space W - W) % addr_space W) =
      malloc (malloc_request W alignment size) := by
  simp only [noise_allocate, Function.update_same]

/-- C11: over an explicit heap, if `p` is the pointer `noise_allocate` returned
and the header slot just before `p` still holds what `noise_allocate` stored
there, `noise_free(p)` hands to `free` the address `mem` that `malloc`
returned, and nothing else: the list of freed addresses grows by `mem`. -/
theorem noise_free_releases_host_block (W : Nat) (malloc : Nat → Nat) (alignment size : Nat)
    (h later : Heap)
    (hkept : later.slot
        (((noise_allocate W malloc alignment size h).1 + addr_space W - W) % addr_space W) =
      (noise_allocate W malloc alignment size h).2.slot
        (((noise_allocate W malloc alignment size h).1 + addr_space W - W) % addr_space W)) :
    (noise_free W (noise_allocate W malloc alignment size h).1 later).freed =
        malloc (malloc_request W alignment size) :: later.freed ∧
      (noise_free W (noise_allocate W malloc alignment size h).1 later).slot = later.slot := by
  rw [noise_allocate_header] at hkept
  simp only [noise_free, hkept, and_self]

/-- Witness for C11: a 64-bit build, alignment 16, size 100, a host block at
4104; between the two calls another slot is written and another block freed. -/
theorem noise_free_releases_host_block_witness :
    (Heap.mk (Function.update
          (noise_allocate 8 (fun _ => 4104) 16 100 (Heap.mk (fun _ => 0) [])).2.slot 5000 99)
          [12345]).slot
        (((noise_allocate 8 (fun _ => 4104) 16 100 (Heap.mk (fun _ => 0) [])).1
          + addr_space 8 - 8) % addr_space 8) =
      (noise_allocate 8 (fun _ => 4104) 16 100 (Heap.mk (fun _ => 0) [])).2.slot
        (((noise_allocate 8 (fun _ => 4104) 16 100 (Heap.mk (fun _ => 0) [])).1
          + addr_space 8 - 8) % addr_space 8) ∧
      (noise_free 8 (noise_allocate 8 (fun _ => 4104) 16 100 (Heap.mk (fun _ => 0) [])).1
          (Heap.mk (Function.update
            (noise_allocate 8 (fun _ => 4104) 16 100 (Heap.mk (fun _ => 0) [])).2.slot 5000 99)
            [12345])).freed = [4104, 12345] :=
  ⟨by decide,
    (noise_free_releases_host_block 8 (fun _ => 4104) 16 100 (Heap.mk (fun _ => 0) [])
      (Heap.mk (Function.update
        (noise_allocate 8 (fun _ => 4104) 16 100 (Heap.mk (fun _ => 0) [])).2.slot 5000 99)
        [12345]) (by decide)).1⟩

/-- Two numbers with no set bit in common add without carries. -/
theorem add_eq_or_of_and_eq_zero (a b : Nat) (h : a &&& b = 0) : a + b = a ||| b := by
  have ha : a < 2 ^ (a + b) := lt_of_le_of_lt (Nat.le_add_right a b) (Nat.lt_two_pow _)
  have hb : b < 2 ^ (a + b) := lt_of_le_of_lt (Nat.le_add_left b a) (Nat.lt_two_pow _)
  have hz : BitVec.ofNat (a + b) a &&& BitVec.ofNat (a + b) b = 0#(a + b) := by
    apply BitVec.eq_of_toNat_eq
    simp [BitVec.toNat_and, Nat.mod_eq_of_lt ha, Nat.mod_eq_of_lt hb, h]
  have h1 := BitVec.toNat_add_of_and_eq_zero hz
  rw [BitVec.add_eq_or_of_and_eq_zero _ _ hz] at h1
  simp only [BitVec.toNat_or, BitVec.toNat_ofNat, Nat.mod_eq_of_lt ha, Nat.mod_eq_of_lt hb] at h1
  exact h1.symm

/-- Masking with `2 ^ n - a` clears the bits of `a - 1` and lowers the value by
at most `a - 1`. -/
theorem and_compl_bounds (n v a : Nat) (hv : v < 2 ^ n) (ha : 1 ≤ a) (han : a ≤ 2 ^ n) :
    v &&& (2 ^ n - a) ≤ v ∧ v ≤ (v &&& (2 ^ n - a)) + (a - 1) ∧
      (v &&& (2 ^ n - a)) &&& (a - 1) = 0 := by
  have hc : a - 1 < 2 ^ n := by omega
  have hm : 2 ^ n - a = 2 ^ n - ((a - 1) + 1) := by omega
  have hdisj : (v &&& (2 ^ n - a)) &&& (v &&& (a - 1)) = 0 := by
    apply Nat.eq_of_testBit_eq
    intro i
    rw [hm]
    simp only [Nat.testBit_and, Nat.testBit_two_pow_sub_succ hc, Nat.zero_testBit]
    cases v.testBit i <;> cases (a - 1).testBit i <;> simp
  have hor : (v &&& (2 ^ n - a)) ||| (v &&& (a - 1)) = v := by
    apply Nat.eq_of_testBit_eq
    intro i
    rw [hm]
    simp only [Nat.testBit_or, Nat.testBit_and, Nat.testBit_two_pow_sub_succ hc]
    by_cases hi : i < n
    · cases v.testBit i <;> cases (a - 1).testBit i <;> simp [hi]
    · have : v.testBit i = false := Nat.testBit_lt_two_pow (lt_of_lt_of_le hv
        (Nat.pow_le_pow_right (by decide) (by omega)))
      simp [this]
  have hsum := add_eq_or_of_and_eq_zero _ _ hdisj
  rw [hor] at hsum
  have hr : v &&& (a - 1) ≤ a - 1 := Nat.and_le_right
  refine ⟨Nat.and_le_left, by omega, ?_⟩
  apply Nat.eq_of_testBit_eq
  intro i
  rw [hm]
  simp only [Nat.testBit_and, Nat.testBit_two_pow_sub_succ hc, Nat.zero_testBit]
  cases v.testBit i <;> cases (a - 1).testBit i <;> simp

/-- For an alignment from 1 up to the size of the address space the mask
`~(alignment - 1)` is `2 ^ (8 * W) - alignment`. -/
theorem align_mask_eq (W alignment : Nat) (ha : 1 ≤ alignment) (hle : alignment ≤ addr_space W) :
    align_mask W alignment = addr_space W - alignment := by
  unfold align_mask
  have : alignment + addr_space W - 1 = (alignment - 1) + addr_space W := by omega
  rw [this, Nat.add_mod_right, Nat.mod_eq_of_lt (by omega)]
  omega

/-- When the header slot lies inside the block, the checked call returns what
`noise_allocate` computes. -/
theorem noise_allocate_checked_returned (W : Nat) (malloc : Nat → Nat) (alignment size : Nat)
    (h : Heap)
    (hin : malloc (malloc_request W alignment size) ≠ 0 ∧
      malloc (malloc_request W alignment size) ≤
        ((noise_allocate W malloc alignment size h).1 + addr_space W - W) % addr_space W ∧
      ((noise_allocate W malloc alignment size h).1 + addr_space W - W) % addr_space W + W ≤
        malloc (malloc_request W alignment size) + malloc_request W alignment size) :
    noise_allocate_checked W malloc alignment size h =
      Outcome.returned (noise_allocate W malloc alignment size h).1
        (noise_allocate W malloc alignment size h).2 := by
  unfold noise_allocate_checked
  unfold noise_allocate at hin ⊢
  simp only [] at hin ⊢
  rw [if_pos hin]

/-- C13 as stated fails: on a 64-bit build with alignment 3, which is not a
power of two, and a host block at 4096, `noise_allocate` returns 4105 after
storing the block's address in the slot at 4097, inside the block; for a host
block at 8192 it returns 8201.  The host allocator was called and no error is
returned.  The address 4105 is not a multiple of 3. -/
theorem noise_allocate_accepts_alignment_3 :
    noise_allocate_checked 8 (fun _ => 4096) 3 100 (Heap.mk (fun _ => 0) []) =
        Outcome.returned 4105 (Heap.mk (Function.update (fun _ => 0) 4097 4096) []) ∧
      noise_allocate_checked 8 (fun _ => 8192) 3 100 (Heap.mk (fun _ => 0) []) =
        Outcome.returned 8201 (Heap.mk (Function.update (fun _ => 0) 8193 8192) []) ∧
      4105 % 3 ≠ 0 :=
  ⟨rfl, rfl, by decide⟩

/-- With alignment 0 the mask is 0 and `noise_set` is null: the store
`noise_set[-1] = mem` goes to the last slot of the address space, outside the
block at 4096. -/
theorem noise_allocate_alignment_0_invalid_store :
    noise_allocate_checked 8 (fun _ => 4096) 0 100 (Heap.mk (fun _ => 0) []) =
      Outcome.invalid_store 18446744073709551608 :=
  rfl

/-- C13, as amended: `noise_allocate` does not look at the alignment.  For
every alignment from 1 up, power of two or not, when the request
`size + alignment + sizeof(void *)` does not wrap and the host allocator
returns a block that is not null and ends below the top of the address space,
the call asks for that many bytes and returns the pointer
`p = (mem + alignment + sizeof(void *)) & ~(alignment - 1)`, with
`mem + sizeof(void *) < p ≤ mem + alignment + sizeof(void *)`, the usable
region `[p, p + size)` inside the block and the bits of `alignment - 1` clear
in `p`; it stores `mem` in the slot below `p`, inside the block, and frees
nothing. -/
theorem noise_allocate_any_alignment (W : Nat) (malloc : Nat → Nat) (alignment size : Nat)
    (h : Heap) (ha : 1 ≤ alignment) (hreq : size + alignment + W < addr_space W)
    (hmem : malloc (malloc_request W alignment size) ≠ 0)
    (hblock : malloc (malloc_request W alignment size) + (size + alignment + W) < addr_space W) :
    malloc_request W alignment size = size + alignment + W ∧
      noise_allocate_checked W malloc alignment size h =
        Outcome.returned (noise_allocate W malloc alignment size h).1
          (noise_allocate W malloc alignment size h).2 ∧
      (noise_allocate W malloc alignment size h).1 =
        (malloc (malloc_request W alignment size) + alignment + W) &&&
          (addr_space W - alignment) ∧
      malloc (malloc_request W alignment size) + W < (noise_allocate W malloc alignment size h).1 ∧
      (noise_allocate W malloc alignment size h).1 ≤
        malloc (malloc_request W alignment size) + alignment + W ∧
      (noise_allocate W malloc alignment size h).1 + size ≤
        malloc (malloc_request W alignment size) + malloc_request W alignment size ∧
      (noise_allocate W malloc alignment size h).1 &&& (alignment - 1) = 0 ∧
      (noise_allocate W malloc alignment size h).2.slot
        ((noise_allocate W malloc alignment size h).1 - W) =
          malloc (malloc_request W alignment size) ∧
      (noise_allocate W malloc alignment size h).2.freed = h.freed := by
  have hr : malloc_request W alignment size = size + alignment + W := by
    unfold malloc_request
    exact Nat.mod_eq_of_lt hreq
  have hstore := noise_allocate_header W malloc alignment size h
  have hp : (noise_allocate W malloc alignment size h).1 =
      ((malloc (malloc_request W alignment size) + alignment + W) % addr_space W) &&&
        align_mask W alignment := rfl
  have hfreed : (noise_allocate W malloc alignment size h).2.freed = h.freed := rfl
  have hv : malloc (malloc_request W alignment size) + alignment + W < addr_space W := by omega
  rw [Nat.mod_eq_of_lt hv, align_mask_eq W alignment ha (by omega)] at hp
  have hS : addr_space W = 2 ^ (8 * W) := rfl
  obtain ⟨hb1, hb2, hb3⟩ := and_compl_bounds (8 * W)
    (malloc (malloc_request W alignment size) + alignment + W) alignment (by rw [← hS]; exact hv)
    ha (by rw [← hS]; omega)
  rw [← hS, ← hp] at hb1 hb2 hb3
  have haddr : ((noise_allocate W malloc alignment size h).1 + addr_space W - W) % addr_space W =
      (noise_allocate W malloc alignment size h).1 - W := by
    have : (noise_allocate W malloc alignment size h).1 + addr_space W - W =
        ((noise_allocate W malloc alignment size h).1 - W) + addr_space W := by omega
    rw [this, Nat.add_mod_right]
    exact Nat.mod_eq_of_lt (by omega)
  rw [haddr] at hstore
  refine ⟨hr, ?_, hp, by omega, hb1, by omega, hb3, hstore, hfreed⟩
  apply noise_allocate_checked_returned
  rw [haddr]
  refine ⟨hmem, ?_, ?_⟩ <;> omega

/-- Witness for the amended C13: a 64-bit build, alignment 3, size 100, a host
block at 4096. -/
theorem noise_allocate_any_alignment_witness :
    ((1 : Nat) ≤ 3 ∧ 100 + 3 + 8 < addr_space 8 ∧
        (fun _ : Nat => 4096) (malloc_request 8 3 100) ≠ 0 ∧
        (fun _ : Nat => 4096) (malloc_request 8 3 100) + (100 + 3 + 8) < addr_space 8) ∧
      noise_allocate_checked 8 (fun _ => 4096) 3 100 (Heap.mk (fun _ => 0) []) =
        Outcome.returned (noise_allocate 8 (fun _ => 4096) 3 100 (Heap.mk (fun _ => 0) [])).1
          (noise_allocate 8 (fun _ => 4096) 3 100 (Heap.mk (fun _ => 0) [])).2 :=
  ⟨by decide, (noise_allocate_any_alignment 8 (fun _ => 4096) 3 100 (Heap.mk (fun _ => 0) [])
    (by decide) (by decide) (by decide) (by decide)).2.1⟩

/-- C12 as stated fails: on a 64-bit build with alignment 16, when `malloc`
returns null, `noise_allocate` computes `noise_set = (0 + 16 + 8) & ~15 = 16`
from the null address and stores through `noise_set[-1]`, at address 8, where
there is no block: nothing is reported to the caller. -/
theorem noise_allocate_null_not_reported :
    (fun _ : Nat => 0) (malloc_request 8 16 100) = 0 ∧
      noise_allocate_checked 8 (fun _ => 0) 16 100 (Heap.mk (fun _ => 7) []) =
        Outcome.invalid_store 8 :=
  ⟨rfl, rfl⟩

/-- C12, as amended: when `malloc` returns null, `noise_allocate` does not test
the result and reports nothing.  For every alignment and size it derives
`noise_set = (alignment + sizeof(void *)) & ~(alignment - 1)` from the null
address and stores through `noise_set[-1]`, where there is no block; for a
power-of-two alignment with `alignment + sizeof(void *)` inside `size_t` that
store is at the address
`alignment * ((alignment + sizeof(void *)) / alignment) - sizeof(void *)`,
above 0 and at most `alignment`. -/
theorem noise_allocate_null_invalid_store (W : Nat) (malloc : Nat → Nat) (alignment size : Nat)
    (h : Heap) (hnull : malloc (malloc_request W alignment size) = 0) :
    noise_allocate_checked W malloc alignment size h =
        Outcome.invalid_store
          (((((alignment + W) % addr_space W) &&& align_mask W alignment) + addr_space W - W)
            % addr_space W) ∧
      ∀ k : Nat, alignment = 2 ^ k → k < 8 * W → 2 ^ k + W < addr_space W →
        (((((alignment + W) % addr_space W) &&& align_mask W alignment) + addr_space W - W)
            % addr_space W) = 2 ^ k * ((2 ^ k + W) / 2 ^ k) - W ∧
          0 < 2 ^ k * ((2 ^ k + W) / 2 ^ k) - W ∧
          2 ^ k * ((2 ^ k + W) / 2 ^ k) - W ≤ 2 ^ k := by
  constructor
  · unfold noise_allocate_checked
    simp only [hnull, Nat.zero_add, ne_eq, not_true_eq_false, false_and, if_false]
  · intro k hk2 hk hfit
    subst hk2
    have hpos : 0 < 2 ^ k := Nat.pos_pow_of_pos k (by decide)
    have hsplit : addr_space W = 2 ^ k * 2 ^ (8 * W - k) := by
      unfold addr_space
      rw [← Nat.pow_add]
      congr 1
      omega
    have hq : (2 ^ k + W) / 2 ^ k < 2 ^ (8 * W - k) := by
      rw [Nat.div_lt_iff_lt_mul hpos, Nat.mul_comm, ← hsplit]
      exact hfit
    rw [align_mask_two_pow W k hk, and_shifted_ones, Nat.mod_eq_of_lt hfit, Nat.mod_eq_of_lt hq]
    have hdm := Nat.div_add_mod (2 ^ k + W) (2 ^ k)
    have hml := Nat.mod_lt (2 ^ k + W) hpos
    generalize 2 ^ k * ((2 ^ k + W) / 2 ^ k) = p at hdm ⊢
    have hW : W < p := by omega
    have hle : p ≤ 2 ^ k + W := by omega
    have : p + addr_space W - W = (p - W) + addr_space W := by omega
    rw [this, Nat.add_mod_right, Nat.mod_eq_of_lt (by omega)]
    refine ⟨rfl, ?_, ?_⟩ <;> omega

/-- Witness for the amended C12: a 64-bit build, alignment 16, size 100; the
store goes to address 8. -/
theorem noise_allocate_null_invalid_store_witness :
    (fun _ : Nat => 0) (malloc_request 8 16 100) = 0 ∧
      noise_allocate_checked 8 (fun _ => 0) 16 100 (Heap.mk (fun _ => 7) []) =
        Outcome.invalid_store
          (((((16 + 8) % addr_space 8) &&& align_mask 8 16) + addr_space 8 - 8) % addr_space 8) ∧
      (((((16 + 8) % addr_space 8) &&& align_mask 8 16) + addr_space 8 - 8) % addr_space 8) = 8 :=
  ⟨rfl, (noise_allocate_null_invalid_store 8 (fun _ => 0) 16 100 (Heap.mk (fun _ => 7) [])
    rfl).1, by decide⟩

/-! ## Theorems: range folding and value noise -/

/-- For a dividend that is not negative, `fmod` lies in `[0, y)`. -/
theorem fmod_of_nonneg (x y : ℚ) (hy : 0 < y) (hx : 0 ≤ x) :
    0 ≤ fmod x y ∧ fmod x y < y := by
  unfold fmod
  have hq : 0 ≤ x / y := div_nonneg hx (le_of_lt hy)
  rw [if_pos hq]
  have hf := Int.floor_le (x / y)
  have hf2 := Int.lt_floor_add_one (x / y)
  rw [le_div_iff₀ hy] at hf
  rw [div_lt_iff₀ hy] at hf2
  constructor <;> nlinarith

/-- For a dividend that is not positive, `fmod` lies in `(-y, 0]`. -/
theorem fmod_of_nonpos (x y : ℚ) (hy : 0 < y) (hx : x ≤ 0) :
    -y < fmod x y ∧ fmod x y ≤ 0 := by
  unfold fmod
  have hq : x / y ≤ 0 := div_nonpos_of_nonpos_of_nonneg hx (le_of_lt hy)
  have hc := Int.le_ceil (x / y)
  have hc2 : (⌈x / y⌉ : ℚ) - 1 < x / y := by linarith [Int.ceil_lt_add_one (x / y)]
  rw [div_le_iff₀ hy] at hc
  rw [lt_div_iff₀ hy] at hc2
  have ht : (if 0 ≤ x / y then ⌊x / y⌋ else ⌈x / y⌉) = ⌈x / y⌉ := by
    split_ifs with h
    · have : x / y = 0 := le_antisymm hq h
      rw [this]
      simp
    · rfl
  rw [ht]
  constructor <;> nlinarith

/-- C14: in exact arithmetic, with `fmod` the truncated remainder, the result
of `make_int_32_range` lies in `[-2 ^ 30, 2 ^ 30]` for every `n`, and every `n`
with `-2 ^ 30 < n < 2 ^ 30` is returned unchanged. -/
theorem make_int_32_range_bounds (n : ℚ) :
    (-1073741824 ≤ make_int_32_range n ∧ make_int_32_range n ≤ 1073741824) ∧
      (-1073741824 < n ∧ n < 1073741824 → make_int_32_range n = n) := by
  unfold make_int_32_range
  refine ⟨?_, ?_⟩
  · split_ifs with h1 h2
    · obtain ⟨a, b⟩ := fmod_of_nonneg n 1073741824 (by norm_num) (by linarith)
      constructor <;> linarith
    · obtain ⟨a, b⟩ := fmod_of_nonpos n 1073741824 (by norm_num) (by linarith)
      constructor <;> linarith
    · push_neg at h1 h2
      constructor <;> linarith
  · rintro ⟨hlo, hhi⟩
    rw [if_neg (by linarith [hhi]), if_neg (by linarith [hlo])]

/-- Witness for C14: `0.5` is returned unchanged, and `3 * 2 ^ 30 - 0.5`, which
folds to `2 ^ 30 - 1`, stays inside the range. -/
theorem make_int_32_range_bounds_witness :
    ((-1073741824 : ℚ) < 1 / 2 ∧ (1 / 2 : ℚ) < 1073741824) ∧
      make_int_32_range (1 / 2) = 1 / 2 ∧
      make_int_32_range (3221225472 - 1 / 2) = 1073741823 ∧
      (-1073741824 ≤ make_int_32_range (3221225472 - 1 / 2) ∧
        make_int_32_range (3221225472 - 1 / 2) ≤ 1073741824) :=
  ⟨by norm_num, (make_int_32_range_bounds (1 / 2)).2 (by norm_num), by decide!,
    (make_int_32_range_bounds (3221225472 - 1 / 2)).1⟩

/-- C18: `int_value_noise_3d` returns 1396363385 for every `x`, `y`, `z` and
seed, so `value_noise_3d` is the same number, `1 - 1396363385 / 2 ^ 30`, for
every lattice point and every seed. -/
theorem value_noise_is_constant (x y z seed : Int) :
    int_value_noise_3d x y z seed = 1396363385 ∧
      value_noise_3d x y z seed = 1 - 1396363385 / 1073741824 ∧
      ∀ x' y' z' seed' : Int, value_noise_3d x y z seed = value_noise_3d x' y' z' seed' := by
  have h : ∀ a b c d : Int, int_value_noise_3d a b c d = 1396363385 := by
    intro a b c d
    unfold int_value_noise_3d
    decide
  refine ⟨h x y z seed, ?_, fun x' y' z' seed' => ?_⟩
  · simp only [value_noise_3d, h]
    norm_num
  · simp only [value_noise_3d, h]

/-! ## Theorems: lattice corners and offsets of the scalar kernel -/

/-- No float is `INT_MAX`: a float that large is a multiple of 128. -/
theorem f32_value_ne_int_max (b : Nat) : f32_value b ≠ 2147483647 := by
  unfold f32_value
  simp only
  have hm : b % 8388608 < 8388608 := Nat.mod_lt _ (by decide)
  have hmq : ((b % 8388608 : Nat) : ℚ) < 8388608 := by exact_mod_cast hm
  have hm0 : (0 : ℚ) ≤ ((b % 8388608 : Nat) : ℚ) := Nat.cast_nonneg _
  generalize b % 8388608 = m at hm hmq hm0
  generalize b / 8388608 % 256 = e
  intro h
  by_cases hs : b / 2147483648 % 2 = 1
  · simp only [hs, if_true] at h
    split_ifs at h with h1 h2
    · have : (0 : ℚ) ≤ (m : ℚ) / 2 ^ 149 := by positivity
      linarith
    · have : (0 : ℚ) ≤ (8388608 + (m : ℚ)) * 2 ^ (e - 150) := by positivity
      linarith
    · have : (0 : ℚ) ≤ (8388608 + (m : ℚ)) / 2 ^ (150 - e) := by positivity
      linarith
  · simp only [hs, if_false, one_mul] at h
    split_ifs at h with h1 h2
    · have : (m : ℚ) / 2 ^ 149 < 1 := by
        rw [div_lt_one (by positivity)]
        have : (8388608 : ℚ) ≤ 2 ^ 149 := by norm_num
        linarith
      linarith
    · have hN : (8388608 + m) * 2 ^ (e - 150) = 2147483647 := by exact_mod_cast h
      rcases Nat.eq_zero_or_pos (e - 150) with h0 | h0
      · rw [h0] at hN
        omega
      · have : 2 ∣ (8388608 + m) * 2 ^ (e - 150) :=
          Dvd.dvd.mul_left (dvd_pow_self 2 (by omega)) _
        rw [hN] at this
        omega
    · have hpow : (2 : ℚ) ≤ 2 ^ (150 - e) := by
        have : 1 ≤ 150 - e := by omega
        calc (2 : ℚ) = 2 ^ 1 := by norm_num
          _ ≤ 2 ^ (150 - e) := pow_le_pow_right₀ (by norm_num) this
      have : (8388608 + (m : ℚ)) / 2 ^ (150 - e) ≤ 8388608 := by
        rw [div_le_iff₀ (by positivity)]
        nlinarith
      linarith

/-- The offset of a coordinate from its lower corner: in `[0, 1)` for a
positive coordinate and in `(0, 1]` otherwise. -/
theorem lower_corner_offset (v : ℚ) (hv : in_int_range v) :
    (0 < v → 0 ≤ v - lower_corner v ∧ v - lower_corner v < 1) ∧
      (v ≤ 0 → 0 < v - lower_corner v ∧ v - lower_corner v ≤ 1) := by
  rw [lower_corner_eq v hv]
  constructor
  · intro hpos
    have hp : v > 0 := hpos
    simp only [hp, if_true]
    have h1 := Int.floor_le v
    have h2 := Int.lt_floor_add_one v
    constructor <;> linarith
  · intro hle
    have hn : ¬ v > 0 := not_lt.2 hle
    simp only [hn, if_false]
    have h1 := Int.le_ceil v
    have h2 := Int.ceil_lt_add_one v
    push_cast
    constructor <;> linarith

/-- Below `INT_MAX` the addition `v0 + 1` for the upper corner does not wrap. -/
theorem upper_corner_fits (v : ℚ) (hv : in_int_range v) (hlt : v < 2147483647) :
    int_wrap (lower_corner v + 1) = lower_corner v + 1 := by
  rw [lower_corner_eq v hv]
  obtain ⟨hlo, -⟩ := hv
  by_cases hpos : v > 0
  · simp only [hpos, if_true]
    have hf0 : 0 ≤ ⌊v⌋ := Int.floor_nonneg.2 (le_of_lt hpos)
    have hfhi : ⌊v⌋ < 2147483647 := by
      have : (⌊v⌋ : ℚ) < 2147483647 := lt_of_le_of_lt (Int.floor_le v) hlt
      exact_mod_cast this
    exact int_wrap_of_fits _ (by omega) (by omega)
  · simp only [hpos, if_false]
    have hcle : ⌈v⌉ ≤ 0 := Int.ceil_le.2 (by simpa using not_lt.1 hpos)
    have hclo : -2147483648 < ⌈v⌉ := by
      have : (-2147483648 : ℚ) < ⌈v⌉ := lt_of_lt_of_le hlo (Int.le_ceil v)
      exact_mod_cast this
    exact int_wrap_of_fits _ (by omega) (by omega)

/-- Where the scalar corner is the floor: at every coordinate but the integers
that are not positive, where it is one less. -/
theorem lower_corner_floor (v : ℚ) (hv : in_int_range v) :
    (0 < v ∨ (⌊v⌋ : ℚ) ≠ v → lower_corner v = ⌊v⌋) ∧
      (v ≤ 0 ∧ (⌊v⌋ : ℚ) = v → lower_corner v = ⌊v⌋ - 1) := by
  rw [lower_corner_eq v hv]
  constructor
  · rintro (hpos | hfrac)
    · have hp : v > 0 := hpos
      simp only [hp, if_true]
    · by_cases hp : v > 0
      · simp only [hp, if_true]
      · simp only [hp, if_false]
        have hlt : (⌊v⌋ : ℚ) < v := lt_of_le_of_ne (Int.floor_le v) hfrac
        have hc : ⌈v⌉ = ⌊v⌋ + 1 := by
          rw [Int.ceil_eq_iff]
          push_cast
          constructor
          · linarith
          · linarith [Int.lt_floor_add_one v]
        omega
  · rintro ⟨hle, hint⟩
    have hn : ¬ v > 0 := not_lt.2 hle
    simp only [hn, if_false]
    have hc : ⌈v⌉ = ⌊v⌋ := by
      rw [← hint]
      simp
    omega

/-- C15 as stated fails at the coordinate 0, and likewise at every negative
integer: the corner computed for `0.0` is `-1`, and `0 < -1 + 1` is false. -/
theorem lower_corner_not_floor_at_zero :
    in_int_range (f32_value 0) ∧ f32_value 0 = 0 ∧ lower_corner (f32_value 0) = -1 ∧
      ¬ ((lower_corner (f32_value 0) : ℚ) ≤ f32_value 0 ∧
        f32_value 0 < (lower_corner (f32_value 0) : ℚ) + 1) := by
  decide!

/-- C15, amended: for every float `v` with `INT_MIN < v ≤ INT_MAX`, the lower
corner `v0` computed by `gradient_coherent_noise_3d` is `⌊v⌋` when `v` is
positive or not an integer, and `v - 1` when `v` is an integer that is not
positive; so `v0 ≤ v < v0 + 1` for positive `v` and `v0 < v ≤ v0 + 1`
otherwise; the upper corner is `v0 + 1`. -/
theorem lower_corner_brackets (b : Nat) (hv : in_int_range (f32_value b)) :
    (0 < f32_value b ∨ (⌊f32_value b⌋ : ℚ) ≠ f32_value b →
        lower_corner (f32_value b) = ⌊f32_value b⌋) ∧
      (f32_value b ≤ 0 ∧ (⌊f32_value b⌋ : ℚ) = f32_value b →
        (lower_corner (f32_value b) : ℚ) = f32_value b - 1) ∧
      (0 < f32_value b → (lower_corner (f32_value b) : ℚ) ≤ f32_value b ∧
        f32_value b < (lower_corner (f32_value b) : ℚ) + 1) ∧
      (f32_value b ≤ 0 → (lower_corner (f32_value b) : ℚ) < f32_value b ∧
        f32_value b ≤ (lower_corner (f32_value b) : ℚ) + 1) ∧
      int_wrap (lower_corner (f32_value b) + 1) = lower_corner (f32_value b) + 1 := by
  obtain ⟨hfl, hint⟩ := lower_corner_floor _ hv
  obtain ⟨hpos, hneg⟩ := lower_corner_offset _ hv
  refine ⟨hfl, ?_, ?_, ?_, ?_⟩
  · intro h
    rw [hint h]
    push_cast
    linarith [h.2]
  · intro h
    obtain ⟨h1, h2⟩ := hpos h
    constructor <;> linarith
  · intro h
    obtain ⟨h1, h2⟩ := hneg h
    constructor <;> linarith
  · exact upper_corner_fits _ hv (lt_of_le_of_ne hv.2 (f32_value_ne_int_max b))

/-- Witness for the amended C15 at the coordinate `-0.25`. -/
theorem lower_corner_brackets_witness :
    in_int_range (f32_value 0xBE800000) ∧
      ((0 < f32_value 0xBE800000 ∨ (⌊f32_value 0xBE800000⌋ : ℚ) ≠ f32_value 0xBE800000 →
          lower_corner (f32_value 0xBE800000) = ⌊f32_value 0xBE800000⌋) ∧
        (f32_value 0xBE800000 ≤ 0 ∧ (⌊f32_value 0xBE800000⌋ : ℚ) = f32_value 0xBE800000 →
          (lower_corner (f32_value 0xBE800000) : ℚ) = f32_value 0xBE800000 - 1) ∧
        (0 < f32_value 0xBE800000 →
          (lower_corner (f32_value 0xBE800000) : ℚ) ≤ f32_value 0xBE800000 ∧
          f32_value 0xBE800000 < (lower_corner (f32_value 0xBE800000) : ℚ) + 1) ∧
        (f32_value 0xBE800000 ≤ 0 →
          (lower_corner (f32_value 0xBE800000) : ℚ) < f32_value 0xBE800000 ∧
          f32_value 0xBE800000 ≤ (lower_corner (f32_value 0xBE800000) : ℚ) + 1) ∧
        int_wrap (lower_corner (f32_value 0xBE800000) + 1) =
          lower_corner (f32_value 0xBE800000) + 1) :=
  ⟨by norm_num [in_int_range, f32_value],
    lower_corner_brackets 0xBE800000 (by norm_num [in_int_range, f32_value])⟩

/-- In exact arithmetic, for every coordinate with `INT_MIN < v ≤ INT_MAX`
(`in_int_range`), the offset `v - v0` from the lower corner lies in `[0, 1]`:
in `[0, 1)` for positive `v` and in `(0, 1]` otherwise. -/
theorem offset_in_unit_interval (v : ℚ) (hv : in_int_range v) :
    (0 ≤ v - lower_corner v ∧ v - lower_corner v ≤ 1) ∧
      (0 < v → 0 ≤ v - lower_corner v ∧ v - lower_corner v < 1) ∧
      (v ≤ 0 → 0 < v - lower_corner v ∧ v - lower_corner v ≤ 1) := by
  obtain ⟨h0, h1, -⟩ := lower_corner_spec v hv
  exact ⟨⟨h0, h1⟩, lower_corner_offset v hv⟩

/-- C19 fails as stated: the float `-2147483648.0f` (bits `0xCF000000`) is
`INT_MIN`, within the int range; there the corner `(int)x - 1` wraps to
`INT_MAX` and the upper corner `x0 + 1` wraps back to `INT_MIN`, so the two
corners are not one apart and the terms do not cancel: in exact arithmetic the
result at `(INT_MIN, 0, 0)`, seed 0, `QUALITY_FAST`, is
`96240122574648901632 / 5`, not 0. -/
theorem fast_noise_nonzero_at_int_min :
    f32_value 0xCF000000 = -2147483648 ∧
      lower_corner (f32_value 0xCF000000) = 2147483647 ∧
      int_wrap (lower_corner (f32_value 0xCF000000) + 1) = -2147483648 ∧
      gradient_coherent_noise_3d 0xCF000000 0 0 0 .QUALITY_FAST = 96240122574648901632 / 5 ∧
      gradient_coherent_noise_3d 0xCF000000 0 0 0 .QUALITY_FAST ≠ 0 := by
  decide!

/-- C19, as amended: in exact arithmetic, for coordinates with
`INT_MIN < v ≤ INT_MAX` (`in_int_range`) and every seed,
`gradient_coherent_noise_3d` with `QUALITY_FAST` is 0: the eight corners share
one gradient, and blending with the offsets themselves cancels every term. -/
theorem fast_noise_is_zero (x y z : Nat) (seed : Int)
    (hx : in_int_range (f32_value x)) (hy : in_int_range (f32_value y))
    (hz : in_int_range (f32_value z)) :
    gradient_coherent_noise_3d x y z seed .QUALITY_FAST = 0 := by
  rw [gradient_coherent_noise_3d_eq, axis_term _ _ hx, axis_term _ _ hy, axis_term _ _ hz]
  simp only [smooth]
  ring

/-- Witness for the amended C19 at the sample `(0.5, -0.25, 3.0)`, seed 42. -/
theorem fast_noise_is_zero_witness :
    (in_int_range (f32_value 0x3F000000) ∧ in_int_range (f32_value 0xBE800000) ∧
        in_int_range (f32_value 0x40400000)) ∧
      gradient_coherent_noise_3d 0x3F000000 0xBE800000 0x40400000 42 .QUALITY_FAST = 0 :=
  ⟨⟨by norm_num [in_int_range, f32_value], by norm_num [in_int_range, f32_value],
      by norm_num [in_int_range, f32_value]⟩,
    fast_noise_is_zero 0x3F000000 0xBE800000 0x40400000 42
      (by norm_num [in_int_range, f32_value]) (by norm_num [in_int_range, f32_value])
      (by norm_num [in_int_range, f32_value])⟩

/-! ## Theorems: corner and hash of the wide kernels -/

/-- Where the corner of the wide kernels is the scalar corner, and where it is
one below, in exact arithmetic: the two agree on positive coordinates and on
integers, and differ by one on negative coordinates that are not integers. -/
theorem lower_corner_avx_against_scalar (v : ℚ) (hlo : -2147483647 ≤ v) (hhi : v ≤ 2147483647) :
    (0 < v ∨ (⌊v⌋ : ℚ) = v → lower_corner_avx v = lower_corner v) ∧
      (v ≤ 0 ∧ (⌊v⌋ : ℚ) ≠ v → lower_corner_avx v = lower_corner v - 1) := by
  have hv : in_int_range v := ⟨by linarith, hhi⟩
  obtain ⟨hfl, hint⟩ := lower_corner_floor v hv
  rw [lower_corner_avx_eq v hlo hhi]
  constructor
  · rintro (hpos | hi)
    · have hp : v > 0 := hpos
      rw [hfl (Or.inl hpos)]
      simp only [hp, if_true]
    · by_cases hp : v > 0
      · rw [hfl (Or.inl hp)]
        simp only [hp, if_true]
      · rw [hint ⟨not_lt.1 hp, hi⟩]
        simp only [hp, if_false]
  · rintro ⟨hle, hfrac⟩
    have hn : ¬ v > 0 := not_lt.2 hle
    rw [hfl (Or.inr hfrac)]
    simp only [hn, if_false]

/-- C16 fails at a negative fractional lane: for the lane `-0.5` the register
`x0` of the wide kernels holds `-2`, the floor of `-1.5`, while the scalar
kernel computes `(int)(-0.5) - 1 = -1`. -/
theorem wide_corner_differs_from_scalar :
    f32_value 0xBF000000 = -1 / 2 ∧ in_int_range (f32_value 0xBF000000) ∧
      _mm256_cvtps_epi32 (_mm256_floor_ps (_mm256_blendv_ps
        (_mm256_sub_ps (ps_value (fun _ => 0xBF000000)) (_mm256_set1_ps 1))
        (ps_value (fun _ => 0xBF000000))
        (_mm256_cmp_ps_GT_OQ (ps_value (fun _ => 0xBF000000)) _mm256_setzero_ps))) 0 =
        i32_bits (-2) ∧
      lower_corner_avx (f32_value 0xBF000000) = -2 ∧
      lower_corner (f32_value 0xBF000000) = -1 := by
  decide!

/-- The gradient of the scalar kernel is its hashed integer over `2 ^ 31`. -/
theorem axis_gradient_eq_hash (gen f : Nat) (seed : Int) :
    axis_gradient gen f seed = (axis_hash gen f seed : ℚ) / 2147483648 := by
  simp only [axis_gradient, axis_hash]

/-- The gradient of a lane of the wide kernels is its hashed integer over
`2 ^ 31`. -/
theorem lane_gradient_eq_hash (f : Nat) (seed : Int) :
    lane_gradient f seed = (lane_hash f seed : ℚ) / 2147483648 := by
  simp only [lane_gradient, lane_hash]

/-- Where the two hashes agree: on every pattern with the sign bit clear. -/
theorem lane_hash_eq_axis_hash (f : Nat) (seed : Int) (h : f < 2147483648) :
    lane_hash f seed = axis_hash X_NOISE_GEN f seed := by
  have h1 : i32_bits (X_NOISE_GEN : Int) = X_NOISE_GEN := by decide
  have h2 : i32_bits 60493 = 60493 := by decide
  simp only [lane_hash, axis_hash, lsr32_eq_asr32 f h, h1, h2, mul32_cube]

/-- C17 fails for a pattern with the sign bit set: for the bits `0xBF000000`
of `-0.5` and seed 42 the wide kernels hash to `-171575224` and the scalar
kernel to `1607596104`; with corner 0 and `y = z = 0` the lane of
`gradient_noise_3d_avx2` and the scalar `gradient_noise_3d` differ as well. -/
theorem wide_hash_differs_from_scalar :
    lane_hash 0xBF000000 42 = -171575224 ∧
      axis_hash X_NOISE_GEN 0xBF000000 42 = 1607596104 ∧
      lsr32 0xBF000000 16 = 0xBF00 ∧ asr32 0xBF000000 16 = 0xFFFFBF00 ∧
      gradient_noise_3d_avx2 (fun _ => 0xBF000000) 0 0 (fun _ => 0) 0 0 42 0 =
        1136685859 / 13421772800 ∧
      gradient_noise_3d 0xBF000000 0 0 0 0 0 42 = -10650324189 / 13421772800 := by
  decide!

/-! ## Theorems: smoothing curves -/

/-- The cubic curve does not decrease on `[0, 1]`: the difference of two values
is the step times a sum of products of numbers that are not negative. -/
theorem s_curve3_mono (a b : ℚ) (h0 : 0 ≤ a) (hab : a ≤ b) (h1 : b ≤ 1) :
    s_curve3 a ≤ s_curve3 b := by
  have key : s_curve3 b - s_curve3 a =
      (b - a) * (2 * (a * (1 - a)) + 2 * (b * (1 - b)) + a * (1 - b) + b * (1 - a)) := by
    simp only [s_curve3]
    ring
  have hb0 : 0 ≤ b := le_trans h0 hab
  have ha1 : a ≤ 1 := le_trans hab h1
  have hpos : 0 ≤ (b - a) *
      (2 * (a * (1 - a)) + 2 * (b * (1 - b)) + a * (1 - b) + b * (1 - a)) := by
    apply mul_nonneg (sub_nonneg.2 hab)
    have e1 := mul_nonneg h0 (sub_nonneg.2 ha1)
    have e2 := mul_nonneg hb0 (sub_nonneg.2 h1)
    have e3 := mul_nonneg h0 (sub_nonneg.2 h1)
    have e4 := mul_nonneg hb0 (sub_nonneg.2 ha1)
    linarith
  linarith

/-- The quintic curve does not decrease anywhere: the difference of two values
is the step times a sum of squares, the mean of the derivative
`30 t ^ 2 (1 - t) ^ 2` over the step. -/
theorem s_curve5_mono (a b : ℚ) (hab : a ≤ b) : s_curve5 a ≤ s_curve5 b := by
  have key : s_curve5 b - s_curve5 a =
      (b - a) * (30 * ((a * (1 - a) + (b - a) * (1 - 2 * a) / 2 - (b - a) ^ 2 / 3) ^ 2 +
        ((b - a) * (1 - 2 * a) - (b - a) ^ 2) ^ 2 / 12 + ((b - a) ^ 2) ^ 2 / 180)) := by
    simp only [s_curve5]
    ring
  have hpos : 0 ≤ (b - a) *
      (30 * ((a * (1 - a) + (b - a) * (1 - 2 * a) / 2 - (b - a) ^ 2 / 3) ^ 2 +
        ((b - a) * (1 - 2 * a) - (b - a) ^ 2) ^ 2 / 12 + ((b - a) ^ 2) ^ 2 / 180)) := by
    apply mul_nonneg (sub_nonneg.2 hab)
    positivity
  linarith

/-- C21: in exact arithmetic `s_curve3` and `s_curve5` map 0 to 0 and 1 to 1,
do not decrease on `[0, 1]`, and so map `[0, 1]` into `[0, 1]`. -/
theorem s_curves_monotone_on_unit_interval :
    (s_curve3 0 = 0 ∧ s_curve3 1 = 1 ∧ s_curve5 0 = 0 ∧ s_curve5 1 = 1) ∧
      (∀ a b : ℚ, 0 ≤ a → a ≤ b → b ≤ 1 →
        s_curve3 a ≤ s_curve3 b ∧ s_curve5 a ≤ s_curve5 b) ∧
      (∀ a : ℚ, 0 ≤ a → a ≤ 1 →
        (0 ≤ s_curve3 a ∧ s_curve3 a ≤ 1) ∧ (0 ≤ s_curve5 a ∧ s_curve5 a ≤ 1)) := by
  have e30 : s_curve3 0 = 0 := by norm_num [s_curve3]
  have e31 : s_curve3 1 = 1 := by norm_num [s_curve3]
  have e50 : s_curve5 0 = 0 := by norm_num [s_curve5]
  have e51 : s_curve5 1 = 1 := by norm_num [s_curve5]
  refine ⟨⟨e30, e31, e50, e51⟩, fun a b h0 hab h1 => ?_, fun a h0 h1 => ?_⟩
  · exact ⟨s_curve3_mono a b h0 hab h1, s_curve5_mono a b hab⟩
  · have l3 := s_curve3_mono 0 a le_rfl h0 h1
    have u3 := s_curve3_mono a 1 h0 h1 le_rfl
    have l5 := s_curve5_mono 0 a h0
    have u5 := s_curve5_mono a 1 h1
    rw [e30] at l3
    rw [e31] at u3
    rw [e50] at l5
    rw [e51] at u5
    exact ⟨⟨l3, u3⟩, ⟨l5, u5⟩⟩

/-- Witness for C21 at `a = 1 / 4` and `b = 3 / 4`. -/
theorem s_curves_monotone_on_unit_interval_witness :
    ((0 : ℚ) ≤ 1 / 4 ∧ (1 / 4 : ℚ) ≤ 3 / 4 ∧ (3 / 4 : ℚ) ≤ 1) ∧
      (s_curve3 (1 / 4) ≤ s_curve3 (3 / 4) ∧ s_curve5 (1 / 4) ≤ s_curve5 (3 / 4)) ∧
      ((0 ≤ s_curve3 (1 / 4) ∧ s_curve3 (1 / 4) ≤ 1) ∧
        (0 ≤ s_curve5 (1 / 4) ∧ s_curve5 (1 / 4) ≤ 1)) :=
  ⟨by norm_num,
    s_curves_monotone_on_unit_interval.2.1 (1 / 4) (3 / 4) (by norm_num) (by norm_num)
      (by norm_num),
    s_curves_monotone_on_unit_interval.2.2 (1 / 4) (by norm_num) (by norm_num)⟩

/-! ## Theorems: float rounding -/

/-- With enough fuel the loop finds the highest set bit. -/
theorem log2_loop_spec (fuel : Nat) : ∀ n : Nat, 0 < n → n ≤ fuel →
    2 ^ log2_loop fuel n ≤ n ∧ n < 2 ^ (log2_loop fuel n + 1) := by
  induction fuel with
  | zero => intro n h0 h1; omega
  | succ f ih =>
    intro n h0 h1
    unfold log2_loop
    by_cases h2 : n < 2
    · simp only [h2, if_true]
      constructor <;> simp <;> omega
    · simp only [h2, if_false]
      have h3 := ih (n / 2) (by omega) (by omega)
      obtain ⟨h4, h5⟩ := h3
      constructor
      · rw [pow_succ]; omega
      · rw [pow_succ]; omega

/-- The highest set bit of a positive number. -/
theorem ilog2_spec (n : Nat) (hn : 0 < n) : 2 ^ ilog2 n ≤ n ∧ n < 2 ^ (ilog2 n + 1) :=
  log2_loop_spec n n hn le_rfl

/-- The binary exponent brackets the magnitude. -/
theorem binade_spec (q : ℚ) (hq : q ≠ 0) :
    (2 : ℚ) ^ binade q ≤ |q| ∧ |q| < 2 ^ (binade q + 1) := by
  have hnum : q.num ≠ 0 := Rat.num_ne_zero.2 hq
  have ha : 0 < q.num.natAbs := Int.natAbs_pos.2 hnum
  have hb : 0 < q.den := q.den_pos
  obtain ⟨ha1, ha2⟩ := ilog2_spec _ ha
  obtain ⟨hb1, hb2⟩ := ilog2_spec _ hb
  have habs : |q| = (q.num.natAbs : ℚ) / (q.den : ℚ) := by
    conv_lhs => rw [← Rat.num_div_den q]
    rw [abs_div, Nat.abs_cast, Nat.cast_natAbs, Int.cast_abs]
  have ha1q : (2 : ℚ) ^ ilog2 q.num.natAbs ≤ (q.num.natAbs : ℚ) := by exact_mod_cast ha1
  have ha2q : (q.num.natAbs : ℚ) < 2 ^ (ilog2 q.num.natAbs + 1) := by exact_mod_cast ha2
  have hb1q : (2 : ℚ) ^ ilog2 q.den ≤ (q.den : ℚ) := by exact_mod_cast hb1
  have hb2q : (q.den : ℚ) < 2 ^ (ilog2 q.den + 1) := by exact_mod_cast hb2
  have hbq : (0 : ℚ) < q.den := by exact_mod_cast hb
  have hk : ((2 : ℚ) ^ ((ilog2 q.num.natAbs : Int) - (ilog2 q.den : Int))) =
      2 ^ ilog2 q.num.natAbs / 2 ^ ilog2 q.den := by
    rw [zpow_sub₀ (by norm_num : (2 : ℚ) ≠ 0), zpow_natCast, zpow_natCast]
  have hpa : (0 : ℚ) < 2 ^ ilog2 q.num.natAbs := by positivity
  have hpb : (0 : ℚ) < 2 ^ ilog2 q.den := by positivity
  unfold binade
  simp only []
  split_ifs with h
  · refine ⟨h, ?_⟩
    rw [zpow_add_one₀ (by norm_num : (2 : ℚ) ≠ 0), hk, habs, div_lt_iff₀ hbq]
    have : (2 : ℚ) ^ ilog2 q.num.natAbs / 2 ^ ilog2 q.den * 2 * (q.den : ℚ)
        = 2 ^ (ilog2 q.num.natAbs + 1) * ((q.den : ℚ) / 2 ^ ilog2 q.den) := by
      field_simp; ring
    rw [this]
    have h1 : (1 : ℚ) ≤ (q.den : ℚ) / 2 ^ ilog2 q.den := by
      rw [le_div_iff₀ hpb]; linarith
    nlinarith
  · push_neg at h
    constructor
    · rw [zpow_sub_one₀ (by norm_num : (2 : ℚ) ≠ 0), hk, habs, le_div_iff₀ hbq]
      have : (2 : ℚ) ^ ilog2 q.num.natAbs / 2 ^ ilog2 q.den * 2⁻¹ * (q.den : ℚ)
          = 2 ^ ilog2 q.num.natAbs * ((q.den : ℚ) / 2 ^ (ilog2 q.den + 1)) := by
        rw [pow_succ]; field_simp
      rw [this]
      have h1 : (q.den : ℚ) / 2 ^ (ilog2 q.den + 1) ≤ 1 := by
        rw [div_le_iff₀ (by positivity)]; linarith
      have h2 : (0 : ℚ) ≤ (q.den : ℚ) / 2 ^ (ilog2 q.den + 1) := by positivity
      nlinarith
    · rw [sub_add_cancel]; exact h

/-- An integer rounds to itself. -/
theorem round_half_even_intCast (n : Int) : round_half_even (n : ℚ) = n := by
  unfold round_half_even
  simp

/-- Rounding to the nearest integer does not cross an integer below. -/
theorem round_half_even_ge (q : ℚ) (a : Int) (h : (a : ℚ) ≤ q) : a ≤ round_half_even q := by
  have h1 : a ≤ ⌊q⌋ := Int.le_floor.2 h
  unfold round_half_even
  simp only []
  split_ifs <;> omega

/-- Rounding to the nearest integer does not cross an integer above. -/
theorem round_half_even_le (q : ℚ) (b : Int) (h : q ≤ (b : ℚ)) : round_half_even q ≤ b := by
  have hfl : (⌊q⌋ : ℚ) ≤ q := Int.floor_le q
  have h1 : ⌊q⌋ ≤ b := by
    have : ((⌊q⌋ : Int) : ℚ) ≤ (b : ℚ) := le_trans hfl h
    exact_mod_cast this
  unfold round_half_even
  simp only []
  by_cases hr : q - (⌊q⌋ : ℚ) < 1 / 2
  · simp only [hr, if_true]; exact h1
  · have h2 : ⌊q⌋ < b := by
      have : ((⌊q⌋ : Int) : ℚ) < (b : ℚ) := by linarith
      exact_mod_cast this
    simp only [hr, if_false]
    split_ifs <;> omega

/-- A number with at most `p` significand bits on a grid the format has is
stored exactly. -/
theorem round_to_fixed (p : Nat) (emin : Int) (N w : Int) (hN : |N| < 2 ^ p) (hw : emin ≤ w) :
    round_to p emin ((N : ℚ) * 2 ^ w) = (N : ℚ) * 2 ^ w := by
  unfold round_to
  have h2w : (0 : ℚ) < 2 ^ w := by positivity
  by_cases hq : (N : ℚ) * 2 ^ w = 0
  · simp only [hq, if_true]
  · simp only [hq, if_false]
    obtain ⟨h1, -⟩ := binade_spec _ hq
    have habs : |(N : ℚ) * 2 ^ w| = (|N| : Int) * 2 ^ w := by
      rw [abs_mul, abs_of_pos h2w, Int.cast_abs]
    have hNq : ((|N| : Int) : ℚ) < 2 ^ p := by exact_mod_cast hN
    have h3 : (2 : ℚ) ^ binade ((N : ℚ) * 2 ^ w) < 2 ^ ((p : Int) + w) := by
      rw [zpow_add₀ (by norm_num : (2 : ℚ) ≠ 0), zpow_natCast]
      calc (2 : ℚ) ^ binade ((N : ℚ) * 2 ^ w) ≤ (|N| : Int) * 2 ^ w := by rw [← habs]; exact h1
        _ < 2 ^ p * 2 ^ w := by nlinarith
    rw [zpow_lt_zpow_iff_right₀ (by norm_num : (1 : ℚ) < 2)] at h3
    have hu : max (binade ((N : ℚ) * 2 ^ w) - ((p : Int) - 1)) emin ≤ w := by
      apply max_le <;> omega
    generalize max (binade ((N : ℚ) * 2 ^ w) - ((p : Int) - 1)) emin = u at hu
    obtain ⟨d, hd⟩ : ∃ d : Nat, w = u + d := ⟨(w - u).toNat, by omega⟩
    have hdiv : (N : ℚ) * 2 ^ w / 2 ^ u = ((N * 2 ^ d : Int) : ℚ) := by
      rw [hd, zpow_add₀ (by norm_num : (2 : ℚ) ≠ 0), zpow_natCast]
      push_cast
      field_simp
      ring
    rw [hdiv, round_half_even_intCast, hd, zpow_add₀ (by norm_num : (2 : ℚ) ≠ 0), zpow_natCast]
    push_cast
    ring

/-- The same with the significand `2 ^ p` allowed. -/
theorem round_to_fixed_le (p : Nat) (emin : Int) (N w : Int) (hp : 1 ≤ p) (hN : |N| ≤ 2 ^ p)
    (hw : emin ≤ w) :
    round_to p emin ((N : ℚ) * 2 ^ w) = (N : ℚ) * 2 ^ w := by
  rcases lt_or_eq_of_le hN with h | h
  · exact round_to_fixed p emin N w h hw
  · obtain ⟨p', rfl⟩ : ∃ p' : Nat, p = p' + 1 := ⟨p - 1, by omega⟩
    have hcases : N = 2 ^ (p' + 1) ∨ N = -2 ^ (p' + 1) := by
      rcases abs_cases N with ⟨h1, -⟩ | ⟨h1, -⟩ <;> [left; right] <;> omega
    have h2 : (2 : Int) ^ p' < 2 ^ (p' + 1) := by
      rw [pow_succ]; have : (0 : Int) < 2 ^ p' := by positivity
      omega
    have hpos : (0 : Int) < 2 ^ p' := by positivity
    rcases hcases with h1 | h1
    · have e : (N : ℚ) * 2 ^ w = ((2 ^ p' : Int) : ℚ) * 2 ^ (w + 1) := by
        rw [h1, zpow_add_one₀ (by norm_num : (2 : ℚ) ≠ 0)]; push_cast; ring
      rw [e]
      exact round_to_fixed _ emin _ _ (by rw [abs_of_pos hpos]; exact h2) (by omega)
    · have e : (N : ℚ) * 2 ^ w = ((-2 ^ p' : Int) : ℚ) * 2 ^ (w + 1) := by
        rw [h1, zpow_add_one₀ (by norm_num : (2 : ℚ) ≠ 0)]; push_cast; ring
      rw [e]
      exact round_to_fixed _ emin _ _ (by rw [abs_neg, abs_of_pos hpos]; exact h2) (by omega)

/-- A number with at most 24 significand bits on a grid no finer than
`2 ^ (-149)` is one a `float` holds. -/
theorem is_f32_of_repr (N w : Int) (hN : |N| ≤ 2 ^ 24) (hw : -149 ≤ w) :
    is_f32 ((N : ℚ) * 2 ^ w) :=
  round_to_fixed_le 24 (-149) N w (by norm_num) hN hw

/-- Storing a number a `float` holds does not change it. -/
theorem round_f32_of_is_f32 (q : ℚ) (h : is_f32 q) : round_f32 q = q :=
  h

/-- The integers up to `2 ^ 24` in magnitude are numbers a `float` holds. -/
theorem is_f32_intCast (n : Int) (h : |n| ≤ 16777216) : is_f32 (n : ℚ) := by
  have := is_f32_of_repr n 0 (by norm_num; exact h) (by norm_num)
  simpa using this

/-- Rounding keeps the sign. -/
theorem round_f32_nonneg (q : ℚ) (h : 0 ≤ q) : 0 ≤ round_f32 q := by
  unfold round_f32 round_to
  split_ifs with hq
  · exact le_rfl
  · simp only []
    generalize max (binade q - (((24 : Nat) : Int) - 1)) (-149) = u
    have h2u : (0 : ℚ) < 2 ^ u := by positivity
    have h1 : (0 : Int) ≤ round_half_even (q / 2 ^ u) :=
      round_half_even_ge _ _ (by push_cast; positivity)
    have h2 : (0 : ℚ) ≤ (round_half_even (q / 2 ^ u) : ℚ) := by exact_mod_cast h1
    positivity

/-- Rounding does not cross 1. -/
theorem round_f32_le_one (q : ℚ) (h : q ≤ 1) : round_f32 q ≤ 1 := by
  unfold round_f32 round_to
  split_ifs with hq
  · norm_num
  · simp only []
    rcases le_or_lt q 0 with hneg | hpos
    · generalize max (binade q - (((24 : Nat) : Int) - 1)) (-149) = u
      have h2u : (0 : ℚ) < 2 ^ u := by positivity
      have h1 : round_half_even (q / 2 ^ u) ≤ 0 :=
        round_half_even_le _ _ (by push_cast; exact div_nonpos_of_nonpos_of_nonneg hneg h2u.le)
      have h2 : (round_half_even (q / 2 ^ u) : ℚ) ≤ 0 := by exact_mod_cast h1
      nlinarith
    · obtain ⟨h1, -⟩ := binade_spec q hq
      rw [abs_of_pos hpos] at h1
      have h3 : (2 : ℚ) ^ binade q ≤ 2 ^ (0 : Int) := by
        rw [zpow_zero]; linarith
      rw [zpow_le_zpow_iff_right₀ (by norm_num : (1 : ℚ) < 2)] at h3
      have hu : max (binade q - (((24 : Nat) : Int) - 1)) (-149) ≤ 0 := by
        apply max_le
        · push_cast; omega
        · omega
      generalize max (binade q - (((24 : Nat) : Int) - 1)) (-149) = u at hu
      have h2u : (0 : ℚ) < 2 ^ u := by positivity
      obtain ⟨d, hd⟩ : ∃ d : Nat, u = -(d : Int) := ⟨(-u).toNat, by omega⟩
      have hpow : (2 : ℚ) ^ u = 1 / 2 ^ d := by
        rw [hd, zpow_neg, zpow_natCast, one_div]
      have h4 : round_half_even (q / 2 ^ u) ≤ 2 ^ d := by
        apply round_half_even_le
        rw [hpow]
        push_cast
        have : (0 : ℚ) < 2 ^ d := by positivity
        rw [div_div_eq_mul_div, div_one]
        nlinarith
      have h5 : (round_half_even (q / 2 ^ u) : ℚ) ≤ 2 ^ d := by exact_mod_cast h4
      rw [hpow] at h5 ⊢
      have : (0 : ℚ) < 2 ^ d := by positivity
      rw [mul_one_div, div_le_one this]
      exact h5

/-- A number of magnitude `2 ^ (-149)` or more does not round to 0. -/
theorem round_f32_pos (q : ℚ) (h : (1 : ℚ) / 2 ^ 149 ≤ q) : 0 < round_f32 q := by
  have hpos : 0 < q := lt_of_lt_of_le (by positivity) h
  have hq : q ≠ 0 := hpos.ne'
  unfold round_f32 round_to
  simp only [hq, if_false]
  obtain ⟨h1, h2⟩ := binade_spec q hq
  rw [abs_of_pos hpos] at h1 h2
  have h3 : (2 : ℚ) ^ (-149 : Int) < 2 ^ (binade q + 1) := by
    refine lt_of_le_of_lt ?_ h2
    rw [zpow_neg, ← one_div]
    exact_mod_cast h
  rw [zpow_lt_zpow_iff_right₀ (by norm_num : (1 : ℚ) < 2)] at h3
  have hu : max (binade q - (((24 : Nat) : Int) - 1)) (-149) ≤ binade q := by
    apply max_le
    · push_cast; omega
    · omega
  generalize max (binade q - (((24 : Nat) : Int) - 1)) (-149) = u at hu
  have h2u : (0 : ℚ) < 2 ^ u := by positivity
  have h4 : (2 : ℚ) ^ u ≤ 2 ^ binade q := by
    rw [zpow_le_zpow_iff_right₀ (by norm_num : (1 : ℚ) < 2)]; exact hu
  have h5 : (1 : Int) ≤ round_half_even (q / 2 ^ u) := by
    apply round_half_even_ge
    push_cast
    rw [le_div_iff₀ h2u]
    linarith
  have h6 : (1 : ℚ) ≤ (round_half_even (q / 2 ^ u) : ℚ) := by exact_mod_cast h5
  positivity

/-- The value of a float pattern: fewer than `2 ^ 24` units of a power of two
no finer than `2 ^ (-149)`. -/
theorem f32_value_repr (b : Nat) :
    ∃ N w : Int, |N| < 2 ^ 24 ∧ -149 ≤ w ∧ f32_value b = (N : ℚ) * 2 ^ w := by
  have hm : b % 8388608 < 8388608 := Nat.mod_lt _ (by norm_num)
  have key : ∀ s : Int, (s = 1 ∨ s = -1) → ∀ sq : ℚ, sq = (s : ℚ) →
      ∃ N w : Int, |N| < 2 ^ 24 ∧ -149 ≤ w ∧
        (if b / 8388608 % 256 = 0 then sq * ((b % 8388608 : Nat) : ℚ) / 2 ^ 149
          else if 150 ≤ b / 8388608 % 256 then
            sq * ((8388608 + ((b % 8388608 : Nat) : ℚ)) * 2 ^ (b / 8388608 % 256 - 150))
          else sq * ((8388608 + ((b % 8388608 : Nat) : ℚ)) / 2 ^ (150 - b / 8388608 % 256)))
        = (N : ℚ) * 2 ^ w := by
    intro s hs sq hsq
    subst hsq
    generalize b / 8388608 % 256 = e
    generalize b % 8388608 = m at hm
    have habs : ∀ n : Nat, n < 16777216 → |s * (n : Int)| < 2 ^ 24 := by
      intro n hn
      rcases hs with rfl | rfl
      · rw [one_mul, Nat.abs_cast]; omega
      · rw [neg_one_mul, abs_neg, Nat.abs_cast]; omega
    split_ifs with h1 h2
    · refine ⟨s * (m : Int), -149, habs m (by omega), le_rfl, ?_⟩
      rw [zpow_neg]
      push_cast
      rw [div_eq_mul_inv]
      norm_cast
    · refine ⟨s * ((8388608 + m : Nat) : Int), ((e - 150 : Nat) : Int), habs _ (by omega),
        by omega, ?_⟩
      rw [zpow_natCast]
      push_cast
      ring
    · refine ⟨s * ((8388608 + m : Nat) : Int), -((150 - e : Nat) : Int), habs _ (by omega),
        by omega, ?_⟩
      rw [zpow_neg, zpow_natCast]
      push_cast
      rw [div_eq_mul_inv]
      ring
  unfold f32_value
  simp only []
  by_cases hs : b / 2147483648 % 2 = 1
  · rw [if_pos hs]
    exact key (-1) (Or.inr rfl) (-1) (by norm_num)
  · rw [if_neg hs]
    exact key 1 (Or.inl rfl) 1 (by norm_num)

/-- Every float pattern decodes to a number a `float` holds. -/
theorem f32_value_is_f32 (b : Nat) : is_f32 (f32_value b) := by
  obtain ⟨N, w, hN, hw, h⟩ := f32_value_repr b
  rw [h]
  exact is_f32_of_repr N w hN.le hw

/-! ## Theorems: scalar kernel in float arithmetic -/

/-- A float of magnitude `1 / 2` or more is a multiple of `2 ^ (-24)`. -/
theorem f32_value_grid (b : Nat) (h : 1 / 2 ≤ |f32_value b|) :
    ∃ n : Int, f32_value b * 2 ^ 24 = (n : ℚ) := by
  obtain ⟨N, w, hN, hw, hv⟩ := f32_value_repr b
  rw [hv] at h ⊢
  have h2w : (0 : ℚ) < 2 ^ w := by positivity
  have hNq : ((|N| : Int) : ℚ) < 2 ^ 24 := by exact_mod_cast hN
  have h1 : (2 : ℚ) ^ (-1 : Int) < 2 ^ ((24 : Int) + w) := by
    rw [zpow_add₀ (by norm_num : (2 : ℚ) ≠ 0)]
    rw [abs_mul, abs_of_pos h2w, ← Int.cast_abs] at h
    have : (2 : ℚ) ^ (-1 : Int) = 1 / 2 := by norm_num
    rw [this]
    have : (2 : ℚ) ^ (24 : Int) = 2 ^ 24 := by norm_cast
    rw [this]
    nlinarith
  rw [zpow_lt_zpow_iff_right₀ (by norm_num : (1 : ℚ) < 2)] at h1
  obtain ⟨d, hd⟩ : ∃ d : Nat, w = -24 + d := ⟨(w + 24).toNat, by omega⟩
  refine ⟨N * 2 ^ d, ?_⟩
  rw [hd, zpow_add₀ (by norm_num : (2 : ℚ) ≠ 0), zpow_natCast]
  push_cast
  have : (2 : ℚ) ^ (-24 : Int) = 1 / 2 ^ 24 := by
    rw [zpow_neg, one_div]; norm_cast
  rw [this]
  field_simp

/-- A float of magnitude `2 ^ 23` or more is an integer. -/
theorem f32_value_int (b : Nat) (h : 8388608 ≤ |f32_value b|) :
    ∃ n : Int, f32_value b = (n : ℚ) := by
  obtain ⟨N, w, hN, hw, hv⟩ := f32_value_repr b
  rw [hv] at h ⊢
  have h2w : (0 : ℚ) < 2 ^ w := by positivity
  have hNq : ((|N| : Int) : ℚ) < 2 ^ 24 := by exact_mod_cast hN
  have h1 : (2 : ℚ) ^ (23 : Int) < 2 ^ ((24 : Int) + w) := by
    rw [zpow_add₀ (by norm_num : (2 : ℚ) ≠ 0)]
    rw [abs_mul, abs_of_pos h2w, ← Int.cast_abs] at h
    have : (2 : ℚ) ^ (23 : Int) = 8388608 := by norm_num
    rw [this]
    have : (2 : ℚ) ^ (24 : Int) = 2 ^ 24 := by norm_cast
    rw [this]
    nlinarith
  rw [zpow_lt_zpow_iff_right₀ (by norm_num : (1 : ℚ) < 2)] at h1
  obtain ⟨d, hd⟩ : ∃ d : Nat, w = d := ⟨w.toNat, by omega⟩
  refine ⟨N * 2 ^ d, ?_⟩
  rw [hd, zpow_natCast]
  push_cast
  ring

/-- Above `-2 ^ 24` the lower corner is a number a `float` holds, so the cast
`(float)v0` does not round. -/
theorem int_to_float_lower_corner (b : Nat) (hlo : -16777216 < f32_value b)
    (hhi : f32_value b ≤ 2147483647) :
    int_to_float (lower_corner (f32_value b)) = (lower_corner (f32_value b) : ℚ) := by
  have hv : in_int_range (f32_value b) := ⟨by linarith, hhi⟩
  unfold int_to_float
  apply round_f32_of_is_f32
  rw [lower_corner_eq _ hv]
  by_cases hpos : f32_value b > 0
  · simp only [hpos, if_true]
    by_cases hbig : 16777216 ≤ f32_value b
    · obtain ⟨n, hn⟩ := f32_value_int b (by rw [abs_of_pos hpos]; linarith)
      have : ((⌊f32_value b⌋ : Int) : ℚ) = f32_value b := by
        rw [hn, Int.floor_intCast]
      rw [this]
      exact f32_value_is_f32 b
    · push_neg at hbig
      apply is_f32_intCast
      have h1 : 0 ≤ ⌊f32_value b⌋ := Int.floor_nonneg.2 hpos.le
      have h2 : ⌊f32_value b⌋ < 16777216 := Int.floor_lt.2 (by exact_mod_cast hbig)
      rw [abs_of_nonneg h1]
      omega
  · simp only [hpos, if_false]
    push_neg at hpos
    apply is_f32_intCast
    have h1 : ⌈f32_value b⌉ ≤ 0 := Int.ceil_le.2 (by exact_mod_cast hpos)
    have h2 : -16777216 < ⌈f32_value b⌉ := by
      have : ((-16777216 : Int) : ℚ) < (⌈f32_value b⌉ : ℚ) :=
        lt_of_lt_of_le (by exact_mod_cast hlo) (Int.le_ceil _)
      exact_mod_cast this
    rw [abs_le]
    constructor <;> omega

/-- The exact offset of a float from its lower corner is a number a `float`
holds, unless the float lies in `(-1 / 2, 0]`, where the offset exceeds
`1 / 2`. -/
theorem offset_exact_or_large (b : Nat) (hlo : -16777216 < f32_value b)
    (hhi : f32_value b ≤ 2147483647) :
    is_f32 (f32_value b - (lower_corner (f32_value b) : ℚ)) ∨
      (f32_value b ≤ 0 ∧ 1 / 2 < f32_value b - (lower_corner (f32_value b) : ℚ)) := by
  have hv : in_int_range (f32_value b) := ⟨by linarith, hhi⟩
  obtain ⟨h0, h1, -⟩ := lower_corner_spec _ hv
  by_cases hhalf : 1 / 2 ≤ |f32_value b|
  · left
    obtain ⟨n, hn⟩ := f32_value_grid b hhalf
    have hk : (f32_value b - (lower_corner (f32_value b) : ℚ)) * 2 ^ 24 =
        ((n - lower_corner (f32_value b) * 2 ^ 24 : Int) : ℚ) := by
      push_cast
      rw [← hn]
      ring
    generalize f32_value b - (lower_corner (f32_value b) : ℚ) = d at h0 h1 hk
    generalize n - lower_corner (f32_value b) * 2 ^ 24 = k at hk
    have hk0 : (0 : ℚ) ≤ (k : ℚ) := by rw [← hk]; positivity
    have hk1 : (k : ℚ) ≤ 2 ^ 24 := by rw [← hk]; nlinarith
    have hk0z : 0 ≤ k := by exact_mod_cast hk0
    have hk1z : k ≤ 2 ^ 24 := by exact_mod_cast hk1
    have hd : d = (k : ℚ) * 2 ^ (-24 : Int) := by
      rw [← hk]
      have : (2 : ℚ) ^ (-24 : Int) = 1 / 2 ^ 24 := by
        rw [zpow_neg, one_div]; norm_cast
      rw [this]
      field_simp
    rw [hd]
    exact is_f32_of_repr k (-24) (by rw [abs_of_nonneg hk0z]; exact hk1z) (by norm_num)
  · push_neg at hhalf
    obtain ⟨h2, h3⟩ := abs_lt.1 hhalf
    rw [lower_corner_eq _ hv]
    by_cases hpos : f32_value b > 0
    · left
      simp only [hpos, if_true]
      have : ⌊f32_value b⌋ = 0 := by
        rw [Int.floor_eq_iff]
        constructor <;> norm_num <;> linarith
      rw [this, Int.cast_zero, sub_zero]
      exact f32_value_is_f32 b
    · right
      simp only [hpos, if_false]
      push_neg at hpos
      have : ⌈f32_value b⌉ = 0 := by
        rw [Int.ceil_eq_iff]
        constructor <;> norm_num <;> linarith
      rw [this]
      refine ⟨hpos, ?_⟩
      norm_num
      linarith

/-- C20, as amended: for every float coordinate `v` with
`-2 ^ 24 < v ≤ INT_MAX`, the cast `(float)v0` of the lower corner is exact and
the offset `v - (float)v0` that `gradient_coherent_noise_3d` computes in float
arithmetic lies in `[0, 1]`: in `[0, 1)` for positive `v` and in `(0, 1]`
otherwise. -/
theorem offset_f32_in_unit_interval (b : Nat) (hlo : -16777216 < f32_value b)
    (hhi : f32_value b ≤ 2147483647) :
    int_to_float (lower_corner (f32_value b)) = (lower_corner (f32_value b) : ℚ) ∧
      (0 ≤ round_f32 (f32_value b - int_to_float (lower_corner (f32_value b))) ∧
        round_f32 (f32_value b - int_to_float (lower_corner (f32_value b))) ≤ 1) ∧
      (0 < f32_value b →
        round_f32 (f32_value b - int_to_float (lower_corner (f32_value b))) < 1) ∧
      (f32_value b ≤ 0 →
        0 < round_f32 (f32_value b - int_to_float (lower_corner (f32_value b)))) := by
  have hv : in_int_range (f32_value b) := ⟨by linarith, hhi⟩
  have hcast := int_to_float_lower_corner b hlo hhi
  obtain ⟨h0, h1, -⟩ := lower_corner_spec _ hv
  obtain ⟨hp, hn⟩ := lower_corner_offset _ hv
  have hcases := offset_exact_or_large b hlo hhi
  rw [hcast]
  refine ⟨rfl, ⟨round_f32_nonneg _ h0, round_f32_le_one _ h1⟩, ?_, ?_⟩
  · intro hpos
    rcases hcases with hex | ⟨hle, -⟩
    · rw [round_f32_of_is_f32 _ hex]
      exact (hp hpos).2
    · linarith
  · intro hle
    rcases hcases with hex | ⟨-, hbig⟩
    · rw [round_f32_of_is_f32 _ hex]
      exact (hn hle).1
    · apply round_f32_pos
      have : (1 : ℚ) / 2 ^ 149 ≤ 1 / 2 := by
        apply one_div_le_one_div_of_le <;> norm_num
      linarith

/-- Witness for C20 at the coordinate `-0.25`, whose offset is `0.75`. -/
theorem offset_f32_in_unit_interval_witness :
    (-16777216 < f32_value 0xBE800000 ∧ f32_value 0xBE800000 ≤ 2147483647) ∧
      (int_to_float (lower_corner (f32_value 0xBE800000)) =
          (lower_corner (f32_value 0xBE800000) : ℚ) ∧
        (0 ≤ round_f32 (f32_value 0xBE800000 -
            int_to_float (lower_corner (f32_value 0xBE800000))) ∧
          round_f32 (f32_value 0xBE800000 -
            int_to_float (lower_corner (f32_value 0xBE800000))) ≤ 1) ∧
        (0 < f32_value 0xBE800000 →
          round_f32 (f32_value 0xBE800000 -
            int_to_float (lower_corner (f32_value 0xBE800000))) < 1) ∧
        (f32_value 0xBE800000 ≤ 0 →
          0 < round_f32 (f32_value 0xBE800000 -
            int_to_float (lower_corner (f32_value 0xBE800000))))) :=
  ⟨⟨by norm_num [f32_value], by norm_num [f32_value]⟩,
    offset_f32_in_unit_interval 0xBE800000 (by norm_num [f32_value])
      (by norm_num [f32_value])⟩

/-- The bound `-2 ^ 24` of the amended C20 is sharp: at `x = -16777216.0f` (bits
`0xCB800000`) the corner `x0 = -16777217` converts to the float `-16777216`,
and the offset `x - (float)x0` is 0, outside `(0, 1]`. -/
theorem offset_f32_at_minus_two_pow_24 :
    f32_value 0xCB800000 = -16777216 ∧ lower_corner (f32_value 0xCB800000) = -16777217 ∧
      int_to_float (lower_corner (f32_value 0xCB800000)) = -16777216 ∧
      round_f32 (f32_value 0xCB800000 - int_to_float (lower_corner (f32_value 0xCB800000)))
        = 0 := by
  decide!

/-- C20 fails as stated: at `x = -16777218.0f` (bits `0xCB800001`) the corner is
`x0 = -16777219`, the cast `(float)x0` rounds to `-16777220`, and the offset
`x - (float)x0` that the kernel smooths and blends with is 2. -/
theorem offset_f32_at_large_negative :
    f32_value 0xCB800001 = -16777218 ∧ lower_corner (f32_value 0xCB800001) = -16777219 ∧
      int_to_float (lower_corner (f32_value 0xCB800001)) = -16777220 ∧
      round_f32 (f32_value 0xCB800001 - int_to_float (lower_corner (f32_value 0xCB800001)))
        = 2 := by
  decide!

/-- In float arithmetic the result leaves `[-1, 1]` below `-2 ^ 24`: at
`x = y = z = -16777218.0f`, seed 7, `QUALITY_STANDARD`, where every offset is
2, the kernel returns `-12193575 / 1048576`, about `-11.63`. -/
theorem gradient_coherent_noise_3d_f32_out_of_range :
    gradient_coherent_noise_3d_f32 0xCB800001 0xCB800001 0xCB800001 7 .QUALITY_STANDARD
        = -12193575 / 1048576 ∧
      gradient_coherent_noise_3d_f32 0xCB800001 0xCB800001 0xCB800001 7 .QUALITY_STANDARD
        < -1 := by
  decide!

end CNoise
